import Mathlib

/-!
Verification of the libtoml repository: a shallow embedding in Lean 4 of the
fixed-extent TOML parser (toml.c), its earlier micro revision (mtoml.c) and
the newer lexer (lex.c), together with theorems settling the specification
claims about them.

Conventions of the embedding:
* A C input stream (FILE with one character of ungetc pushback) is a
  List Char; getc takes the head, ungetc conses the character back.
* Caller memory is a map from Nat addresses to typed memory values.  A C
  write of a whole scalar (memcpy of an int, double, bool) is one update at
  the target address; string copies write individual bytes.  Array elements
  of a typed C array (for example array->arr.integers[offset]) live at
  address base + offset, one slot per element.
* C unions of pointers store one machine word; reading any pointer member
  yields that word.  Where a function reads a union member, the embedding
  also records which member the executed code path read, so that switch
  fall-through in the address dispatch is observable.
* Machine integers are Int/Nat with explicit wrapping at the declared
  width (LP64: short 16, int 32, long 64 bits).
* Loops and mutual recursion are fuel-indexed; `none` means the fuel ran
  out and never arises for the fuel bounds used in the theorems.
-/

/-- Which member of the addr union an executed read used. -/
inductive AddrField where
  | string
  | integer
  | uinteger
  | longint
  | ulongint
  | shortint
  | ushortint
  | boolean
  | real
  | offset
deriving DecidableEq

/-- Value of a double cell: a finite rational (decimal values are exact in
this model; IEEE rounding is not claim-relevant), infinity or NaN. -/
inductive RVal where
  | fin (q : ℚ)
  | inf (neg : Bool)
  | nan (neg : Bool)
deriving DecidableEq

/-- One cell of caller memory. -/
inductive MemVal where
  | undef
  | byte (c : Char)
  | i16 (v : Int)
  | u16 (v : Nat)
  | i32 (v : Int)
  | u32 (v : Nat)
  | i64 (v : Int)
  | u64 (v : Nat)
  | boolv (b : Bool)
  | realv (r : RVal)
  | ptrv (a : Nat)
deriving DecidableEq

def Mem : Type := Nat → MemVal

def Mem.write (m : Mem) (a : Nat) (v : MemVal) : Mem :=
  fun x => if x = a then v else m x

def memInit : Mem := fun _ => (MemVal.undef)

/-- Truncating cast to signed 16 bit (C (short) cast, two-complement wrap). -/
def wrap16 (v : Int) : Int :=
  let r := v.emod 65536
  if r < 32768 then r else r - 65536

def uwrap16 (v : Int) : Nat := (v.emod 65536).toNat

/-- Truncating cast to signed 32 bit (C (int) cast, two-complement wrap). -/
def wrap32 (v : Int) : Int :=
  let r := v.emod 4294967296
  if r < 2147483648 then r else r - 4294967296

def uwrap32 (v : Int) : Nat := (v.emod 4294967296).toNat

def uwrap64 (v : Int) : Nat := (v.emod 18446744073709551616).toNat

def longMax : Int := 9223372036854775807

def longMin : Int := -9223372036854775808

/-- C isspace in the C locale. -/
def isspaceC (c : Char) : Bool :=
  c = ' ' || c = '\t' || c = '\n' || c = '\x0b' || c = '\x0c' || c = '\r'

def isdigitC (c : Char) : Bool := '0' ≤ c && c ≤ '9'

def isxdigitC (c : Char) : Bool :=
  isdigitC c || ('a' ≤ c && c ≤ 'f') || ('A' ≤ c && c ≤ 'F')

def isalphaC (c : Char) : Bool :=
  ('a' ≤ c && c ≤ 'z') || ('A' ≤ c && c ≤ 'Z')

def isalnumC (c : Char) : Bool := isalphaC c || isdigitC c

def hexDigitVal (c : Char) : Nat :=
  if isdigitC c then c.toNat - '0'.toNat
  else if 'a' ≤ c && c ≤ 'f' then c.toNat - 'a'.toNat + 10
  else if 'A' ≤ c && c ≤ 'F' then c.toNat - 'A'.toNat + 10
  else 0

/-! ## libc numeric conversions

Models of strtol(buf, &endptr, 0) and strtod(buf, &endptr) as used by
toml.c.  Result: (value, number of characters of the subject sequence
counted from the start of the string, ERANGE flag).  A consumed count of
zero models endptr == nptr (no conversion was performed).  strtol with
base 0 accepts a 0x/0X hexadecimal prefix and a leading-0 octal prefix;
it does not accept 0b or 0o prefixes. -/

def strtolDigits (isDig : Char → Bool) (val : Char → Nat) (base : Nat)
    (l : List Char) : Nat × Nat :=
  let ds := l.takeWhile isDig
  (ds.foldl (fun acc c => acc * base + val c) 0, ds.length)

def strtolClamp (v : Int) : Int × Bool :=
  if v > longMax then (longMax, true)
  else if v < longMin then (longMin, true)
  else (v, false)

def strtolC (s : List Char) : Int × Nat × Bool :=
  let ws := (s.takeWhile isspaceC).length
  let s1 := s.dropWhile isspaceC
  let (sign, signLen, s2) :=
    match s1 with
    | '+' :: r => ((1 : Int), 1, r)
    | '-' :: r => ((-1 : Int), 1, r)
    | r => ((1 : Int), 0, r)
  let (mag, prefixLen, ndigits) :=
    match s2 with
    | '0' :: x :: r =>
      if (x = 'x' || x = 'X') && (match r with | d :: _ => isxdigitC d | [] => false) then
        let (m, n) := strtolDigits isxdigitC hexDigitVal 16 r
        (m, 2, n)
      else
        -- leading 0 selects octal; the 0 itself is the first octal digit
        let (m, n) := strtolDigits (fun c => '0' ≤ c && c ≤ '7') hexDigitVal 8 ('0' :: x :: r)
        (m, 0, n)
    | ['0'] =>
        (0, 0, 1)
    | l =>
        let (m, n) := strtolDigits isdigitC hexDigitVal 10 l
        (m, 0, n)
  if ndigits = 0 then (0, 0, false)
  else
    let (v, er) := strtolClamp (sign * (mag : Int))
    (v, ws + signLen + prefixLen + ndigits, er)

def dblMax : ℚ := (2 : ℚ) ^ 1024 - (2 : ℚ) ^ 971

/-- strtod on decimal/scientific text plus inf/nan (lowercase forms, the
only ones this repository can produce).  Subnormal underflow is not
modelled; overflow clamps to infinity with the ERANGE flag, as HUGE_VAL. -/
def strtodC (s : List Char) : RVal × Nat × Bool :=
  let ws := (s.takeWhile isspaceC).length
  let s1 := s.dropWhile isspaceC
  let (neg, sign, signLen, s2) :=
    match s1 with
    | '+' :: r => (false, (1 : ℚ), 1, r)
    | '-' :: r => (true, (-1 : ℚ), 1, r)
    | r => (false, (1 : ℚ), 0, r)
  match s2 with
  | 'i' :: 'n' :: 'f' :: _ => (.inf neg, ws + signLen + 3, false)
  | 'n' :: 'a' :: 'n' :: _ => (.nan neg, ws + signLen + 3, false)
  | _ =>
    let ip := s2.takeWhile isdigitC
    let s3 := s2.dropWhile isdigitC
    let (fp, s4, fracLen) :=
      match s3 with
      | '.' :: r => (r.takeWhile isdigitC, r.dropWhile isdigitC, (r.takeWhile isdigitC).length + 1)
      | r => ([], r, 0)
    if ip.length + (if fracLen = 0 then 0 else fracLen - 1) = 0 then
      (.fin 0, 0, false)
    else
      let mant : ℚ :=
        ((ip.foldl (fun acc c => acc * 10 + hexDigitVal c) 0 : Nat) : ℚ) +
          ((fp.foldl (fun acc c => acc * 10 + hexDigitVal c) 0 : Nat) : ℚ) /
            ((10 : ℚ) ^ fp.length)
      let (expv, expLen) :=
        match s4 with
        | e :: r =>
          if e = 'e' || e = 'E' then
            let (esign, esignLen, r2) :=
              match r with
              | '+' :: r2 => ((1 : Int), 1, r2)
              | '-' :: r2 => ((-1 : Int), 1, r2)
              | r2 => ((1 : Int), 0, r2)
            let ed := r2.takeWhile isdigitC
            if ed.length = 0 then ((0 : Int), 0)
            else (esign * (ed.foldl (fun acc c => acc * 10 + hexDigitVal c) 0 : Nat), 1 + esignLen + ed.length)
          else ((0 : Int), 0)
        | [] => ((0 : Int), 0)
      let scaled : ℚ :=
        if expv ≥ 0 then sign * mant * (10 : ℚ) ^ expv.toNat
        else sign * mant / (10 : ℚ) ^ (-expv).toNat
      let consumed := ws + signLen + ip.length + fracLen + expLen
      if scaled > dblMax then (.inf false, consumed, true)
      else if scaled < -dblMax then (.inf true, consumed, true)
      else (.fin scaled, consumed, false)

/-! ## mtoml.c

The micro revision: enum toml_type, struct toml_keys_t with a union of
pointers modelled as the single stored word `addr`, and the
target_address dispatch, whose string_t case in the source has no break
and falls through into the integer_t case. -/

inductive MTomlType where
  | string_t
  | integer_t
  | uinteger_t
  | long_t
  | ulong_t
  | short_t
  | ushort_t
  | boolean_t
  | real_t
deriving DecidableEq

structure MTomlKey where
  key : List Char
  type : MTomlType
  /-- the one word stored in the addr union of pointers -/
  addr : Nat
  len : Nat

/-- mtoml.c target_address.  Each switch case assigns
addr = (cast) cursor->addr.<member>; the embedding records the member read
by the assignment that reaches the return.  The string_t case has no
break in the source, so its assignment is followed by the integer_t
assignment (same stored word, read through the integer member). -/
def mtoml_target_address (cursor : MTomlKey) : Option (AddrField × Nat) :=
  match cursor.type with
  | .string_t =>
    let addr := some (AddrField.string, cursor.addr)
    -- no break in the source: execution continues into the integer_t case
    let addr := some (AddrField.integer, cursor.addr)
    addr
  | .integer_t => some (AddrField.integer, cursor.addr)
  | .uinteger_t => some (AddrField.uinteger, cursor.addr)
  | .long_t => some (AddrField.longint, cursor.addr)
  | .ulong_t => some (AddrField.ulongint, cursor.addr)
  | .short_t => some (AddrField.shortint, cursor.addr)
  | .ushort_t => some (AddrField.ushortint, cursor.addr)
  | .boolean_t => some (AddrField.boolean, cursor.addr)
  | .real_t => some (AddrField.real, cursor.addr)

/-! ## toml.c data model

enum toml_type and the template structures of toml.c (the revision whose
header declares struct toml_key_t / struct toml_array_t; the enum
constants are taken from their uses in toml.c).  The addr union of a key
holds one of: a pointer to a scalar cell, a sub-template pointer, an
embedded array descriptor, or a field offset.  The arr union of an array
descriptor holds a typed element buffer, the strings variant
(ptrs/store/storelen) or the tables variant (subtype/base/structsize). -/

inductive TomlType where
  | string_t
  | integer_t
  | uinteger_t
  | short_t
  | ushort_t
  | long_t
  | ulong_t
  | real_t
  | boolean_t
  | array_t
  | table_t
deriving DecidableEq

mutual
inductive toml_key_t where
  | mk (key : List Char) (type : TomlType) (addr : toml_addr_u) (len : Nat)
inductive toml_addr_u where
  | ptr (a : Nat)
  | keys (ks : List toml_key_t)
  | array (a : toml_array_t)
  | offset (n : Nat)
inductive toml_array_t where
  | mk (type : TomlType) (count : Option Nat) (maxlen : Nat) (arr : toml_arr_u)
inductive toml_arr_u where
  | cells (base : Nat)
  | strings (ptrs : Nat) (store : Nat) (storelen : Nat)
  | tables (subtype : List toml_key_t) (base : Nat) (structsize : Nat)
end

def toml_key_t.key : toml_key_t → List Char
  | .mk k _ _ _ => k

def toml_key_t.type : toml_key_t → TomlType
  | .mk _ t _ _ => t

def toml_key_t.addr : toml_key_t → toml_addr_u
  | .mk _ _ u _ => u

def toml_key_t.len : toml_key_t → Nat
  | .mk _ _ _ n => n

/-- Read a pointer member of the addr union: all pointer members alias the
same stored word; reading a member whose variant was never stored is an
unspecified pun, modelled as 0. -/
def toml_addr_u.readPtr : toml_addr_u → Nat
  | .ptr a => a
  | .offset n => n
  | _ => 0

/-- Read the size_t offset member of the addr union (same word as the
pointer members). -/
def toml_addr_u.readOffset : toml_addr_u → Nat
  | .offset n => n
  | .ptr a => a
  | _ => 0

/-- Read the keys member (sub-template pointer) of the addr union. -/
def toml_addr_u.readKeys : toml_addr_u → List toml_key_t
  | .keys ks => ks
  | _ => []

def junkArray : toml_array_t := .mk .string_t none 0 (.cells 0)

/-- Read the embedded array member of the addr union. -/
def toml_addr_u.readArray : toml_addr_u → toml_array_t
  | .array a => a
  | _ => junkArray

def toml_array_t.type : toml_array_t → TomlType
  | .mk t _ _ _ => t

def toml_array_t.count : toml_array_t → Option Nat
  | .mk _ c _ _ => c

def toml_array_t.maxlen : toml_array_t → Nat
  | .mk _ _ m _ => m

def toml_array_t.arr : toml_array_t → toml_arr_u
  | .mk _ _ _ u => u

/-- arr.<typed element buffer> base address (integers, reals, booleans;
all members of the arr union alias the same storage). -/
def toml_arr_u.readCells : toml_arr_u → Nat
  | .cells b => b
  | .strings p _ _ => p
  | _ => 0

/-- arr.strings.ptrs -/
def toml_arr_u.readStringsPtrs : toml_arr_u → Nat
  | .strings p _ _ => p
  | .cells b => b
  | _ => 0

/-- arr.strings.store; toml.c reads this member unconditionally at the top
of load_array, a junk pun unless the strings variant was stored. -/
def toml_arr_u.readStringsStore : toml_arr_u → Nat
  | .strings _ s _ => s
  | _ => 0

/-- arr.strings.storelen -/
def toml_arr_u.readStringsStorelen : toml_arr_u → Nat
  | .strings _ _ n => n
  | _ => 0

/-- arr.tables.subtype -/
def toml_arr_u.readTablesSubtype : toml_arr_u → List toml_key_t
  | .tables ks _ _ => ks
  | _ => []

/-- arr.tables.base -/
def toml_arr_u.readTablesBase : toml_arr_u → Nat
  | .tables _ b _ => b
  | _ => 0

/-- arr.tables.structsize -/
def toml_arr_u.readTablesStructsize : toml_arr_u → Nat
  | .tables _ _ s => s
  | _ => 0

/-! ## toml.c scanner -/

def TOKBUFSIZ : Nat := 512

/-- Return value of scan/scan_word: the token constant together with the
token buffer contents for WORD and STRING; ERR is the -1 return (end of
input, string error, or token too long for the buffer). -/
inductive ScanTok where
  | LDOUBLEBRACKET
  | RDOUBLEBRACKET
  | LBRACKET
  | RBRACKET
  | LBRACE
  | RBRACE
  | EQUAL
  | COMMA
  | DOT
  | WORD (val : List Char)
  | STRING (val : List Char)
  | ERR
deriving DecidableEq

/-- Characters accepted inside a bare WORD token: [0-9a-zA-Z+-_.]
(strchr("0123456789+-_.", c)). -/
def wordChar (c : Char) : Bool :=
  ('a' ≤ c && c ≤ 'z') || ('A' ≤ c && c ≤ 'Z') ||
    ("0123456789+-_.".toList.contains c)

/-- The quoted-string loop of scan_word: buf has capacity `size`, `acc` is
what has been stored so far.  Order of checks as in the source: end of
input or a newline before the closing quote is an error; a closing quote
returns STRING; a character that would not leave room for the NUL is an
error; otherwise the character is stored. -/
def scan_word_string (size : Nat) (acc : List Char) : List Char → ScanTok × List Char
  | [] => (.ERR, [])
  | c :: rest =>
    if c = '\n' then (.ERR, rest)
    else if c = '"' then (.STRING acc, rest)
    else if acc.length ≥ size - 1 then (.ERR, rest)
    else scan_word_string size (acc ++ [c]) rest

/-- The bare-token loop of scan_word; the first character was already
stored by the caller.  A character outside the word set is pushed back
(ungetc) and the token returned. -/
def scan_word_bare (size : Nat) (acc : List Char) : List Char → ScanTok × List Char
  | [] => (.WORD acc, [])
  | c :: rest =>
    if wordChar c then
      if acc.length ≥ size - 1 then (.ERR, rest)
      else scan_word_bare size (acc ++ [c]) rest
    else (.WORD acc, c :: rest)

/-- scan_word of toml.c: quoted string or bare token, first character c. -/
def scan_word (size : Nat) (c : Char) (input : List Char) : ScanTok × List Char :=
  if c = '"' then scan_word_string size [] input
  else scan_word_bare size [c] input

/-- The scan loop of toml.c.  The comment-skipping inner loop (consume
through the next newline, then continue scanning) is carried as the
`inComment` flag so that the recursion is structural on the input. -/
def scanGo (size : Nat) (inComment : Bool) : List Char → ScanTok × List Char
  | [] => (.ERR, [])
  | c :: rest =>
    if inComment then
      if c = '\n' then scanGo size false rest else scanGo size true rest
    else if isspaceC c then scanGo size false rest
    else if c = '#' then scanGo size true rest
    else if c = '=' then (.EQUAL, rest)
    else if c = '[' then
      match rest with
      | '[' :: r => (.LDOUBLEBRACKET, r)
      | _ => (.LBRACKET, rest)
    else if c = ']' then
      match rest with
      | ']' :: r => (.RDOUBLEBRACKET, r)
      | _ => (.RBRACKET, rest)
    else if c = '{' then (.LBRACE, rest)
    else if c = '}' then (.RBRACE, rest)
    else if c = ',' then (.COMMA, rest)
    else if c = '.' then (.DOT, rest)
    else scan_word size c rest

/-- scan of toml.c. -/
def scan (size : Nat) (input : List Char) : ScanTok × List Char :=
  scanGo size false input

/-- The key-lookup loop shared by load_key_value and toml_load: advance
until the sentinel (end of template list) or a strcmp match. -/
def toml_lookup (keys : List toml_key_t) (name : List Char) : Option toml_key_t :=
  keys.find? (fun k => k.key = name)

/-- toml.c target_address.  The result pairs the union member read by the
assignment that reaches the return with the numeric address (all pointer
members of the union alias the same word).  In the scalar dispatch the
boolean_t case of the source has no break and falls through into the
string_t case; both read the same stored word.  For a field inside an
array-of-tables element the address is
base + offset * structsize + cursor->addr.offset. -/
def target_address (cursor : toml_key_t) (array : Option toml_array_t)
    (offset : Nat) : Option (AddrField × Nat) :=
  match array with
  | none =>
    match cursor.type with
    | .integer_t => some (.integer, cursor.addr.readPtr)
    | .uinteger_t => some (.uinteger, cursor.addr.readPtr)
    | .long_t => some (.longint, cursor.addr.readPtr)
    | .ulong_t => some (.ulongint, cursor.addr.readPtr)
    | .short_t => some (.shortint, cursor.addr.readPtr)
    | .ushort_t => some (.ushortint, cursor.addr.readPtr)
    | .real_t => some (.real, cursor.addr.readPtr)
    | .boolean_t =>
      let addr := some (AddrField.boolean, cursor.addr.readPtr)
      -- no break in the source: execution continues into the string_t case
      let addr := some (AddrField.string, cursor.addr.readPtr)
      addr
    | .string_t => some (.string, cursor.addr.readPtr)
    | _ => none
  | some arr =>
    some (.offset,
      arr.arr.readTablesBase + offset * arr.arr.readTablesStructsize + cursor.addr.readOffset)

/-! ## toml.c value binding and parsing -/

/-- strncpy(dst, src, n): copies bytes of src and zero-pads through n
bytes. -/
def strncpyMem (m : Mem) (dst : Nat) (src : List Char) (n : Nat) : Mem :=
  fun a => if dst ≤ a ∧ a < dst + n then .byte (src.getD (a - dst) (Char.ofNat 0)) else m a

/-- Outcome of the STRING/WORD element switch inside the load_array loop:
on failure the memory already holds any writes made before the failing
check (the strings variant stores ptrs[offset] before checking the store
capacity). -/
inductive ElemRes where
  | fail (mem : Mem)
  | ok (mem : Mem) (sp : Nat)

/-- The case STRING/WORD element switch of load_array: convert the token
text according to the element type of the array and store it at element
slot `offset`; `sp` is the string-store fill pointer. -/
def load_array_word_elem (arr : toml_array_t) (offset sp : Nat) (s : List Char)
    (mem : Mem) : ElemRes :=
  match arr.type with
  | .string_t =>
    let mem1 := mem.write (arr.arr.readStringsPtrs + offset) (.ptrv sp)
    let used := sp - arr.arr.readStringsStore
    let free := arr.arr.readStringsStorelen - used
    let len := s.length
    if len + 1 > free then .fail mem1
    else
      -- memcpy(sp, tokbuf, len); *(sp + len) = NUL
      let mem2 : Mem := fun a =>
        if sp ≤ a ∧ a < sp + len + 1 then .byte (s.getD (a - sp) (Char.ofNat 0)) else mem1 a
      .ok mem2 (sp + len + 1)
  | .integer_t | .uinteger_t | .short_t | .ushort_t | .long_t | .ulong_t =>
    let (val, n, er) := strtolC s
    if (er ∧ (val = longMax ∨ val = longMin)) ∨ (er ∧ val = 0) then .fail mem
    else if n = 0 then .fail mem
    else
      match arr.type with
      | .integer_t => .ok (mem.write (arr.arr.readCells + offset) (.i32 (wrap32 val))) sp
      | .uinteger_t => .ok (mem.write (arr.arr.readCells + offset) (.u32 (uwrap32 val))) sp
      | .short_t => .ok (mem.write (arr.arr.readCells + offset) (.i16 (wrap16 val))) sp
      | .ushort_t => .ok (mem.write (arr.arr.readCells + offset) (.u16 (uwrap16 val))) sp
      | .long_t => .ok (mem.write (arr.arr.readCells + offset) (.i64 val)) sp
      | .ulong_t => .ok (mem.write (arr.arr.readCells + offset) (.u64 (uwrap64 val))) sp
      | _ => .ok mem sp
  | .real_t =>
    let (val, n, er) := strtodC s
    if (er ∧ (val = RVal.inf false ∨ val = RVal.inf true)) ∨ (er ∧ val = RVal.fin 0) then .fail mem
    else if n = 0 then .fail mem
    else .ok (mem.write (arr.arr.readCells + offset) (.realv val)) sp
  | .boolean_t =>
    if s = "true".toList then .ok (mem.write (arr.arr.readCells + offset) (.boolv true)) sp
    else if s = "false".toList then .ok (mem.write (arr.arr.readCells + offset) (.boolv false)) sp
    else .fail mem
  | .array_t | .table_t => .fail mem

/-- The case STRING/case WORD body of load_key_value: both-ways type
agreement checks, boolean literal check, then conversion and the write
through the resolved target address.  `quoted` records whether the token
was STRING (quoted) or WORD. -/
def load_kv_scalar (cursor : toml_key_t) (array : Option toml_array_t)
    (offset maxlen : Nat) (quoted : Bool) (s : List Char) (mem : Mem) : Int × Mem :=
  if quoted ∧ cursor.type ≠ .string_t then (-1, mem)
  else if ¬quoted ∧ cursor.type = .string_t then (-1, mem)
  else if cursor.type = .boolean_t ∧ s ≠ "true".toList ∧ s ≠ "false".toList then (-1, mem)
  else
    match target_address cursor array offset with
    | none => (0, mem)
    | some (_, valp) =>
      match cursor.type with
      | .string_t =>
        let m1 := strncpyMem mem valp s (maxlen - 1)
        (0, m1.write (valp + (maxlen - 1)) (.byte (Char.ofNat 0)))
      | .integer_t | .uinteger_t | .short_t | .ushort_t | .long_t | .ulong_t =>
        let (val, n, er) := strtolC s
        if (er ∧ (val = longMax ∨ val = longMin)) ∨ (er ∧ val = 0) then (-1, mem)
        else if n = 0 then (-1, mem)
        else
          match cursor.type with
          | .integer_t => (0, mem.write valp (.i32 (wrap32 val)))
          | .uinteger_t => (0, mem.write valp (.u32 (uwrap32 val)))
          | .short_t => (0, mem.write valp (.i16 (wrap16 val)))
          | .ushort_t => (0, mem.write valp (.u16 (uwrap16 val)))
          | .long_t => (0, mem.write valp (.i64 val))
          | .ulong_t => (0, mem.write valp (.u64 (uwrap64 val)))
          | _ => (0, mem)
      | .boolean_t => (0, mem.write valp (.boolv (s = "true".toList)))
      | .real_t =>
        let (val, n, er) := strtodC s
        if (er ∧ (val = RVal.inf false ∨ val = RVal.inf true)) ∨ (er ∧ val = RVal.fin 0) then (-1, mem)
        else if n = 0 then (-1, mem)
        else (0, mem.write valp (.realv val))
      | _ => (0, mem)

mutual

/-- The loop of load_array.  Returns (status, remaining input, memory,
final offset); the caller writes the element count.  A -1 from scan exits
the loop (and load_array then reports success), as in the source. -/
def load_array_loop : Nat → toml_array_t → Nat → Nat → List Char → Mem →
    Option (Int × List Char × Mem × Nat)
  | 0, _, _, _, _, _ => none
  | fuel + 1, arr, offset, sp, input, mem =>
    let (tok, input1) := scan TOKBUFSIZ input
    match tok with
    | .ERR => some (0, input1, mem, offset)
    | .RBRACKET => some (0, input1, mem, offset)
    | .COMMA => some (-1, input1, mem, offset)
    | tok =>
      if offset ≥ arr.maxlen then some (-1, input1, mem, offset)
      else
        match tok with
        | .STRING s | .WORD s =>
          match load_array_word_elem arr offset sp s mem with
          | .fail m => some (-1, input1, m, offset)
          | .ok m sp2 => load_array_sep fuel arr offset sp2 input1 m
        | .LBRACE =>
          if arr.type ≠ .table_t then some (-1, input1, mem, offset)
          else
            match load_inline_table fuel arr.arr.readTablesSubtype (some arr) offset input1 mem with
            | none => none
            | some (st, rest, m) =>
              if st = -1 then some (-1, rest, m, offset)
              else load_array_sep fuel arr offset sp rest m
        | _ => some (-1, input1, mem, offset)
termination_by structural fuel => fuel

/-- After a parsed element: offset++, then the separator scan of the
source (RBRACKET ends the array, COMMA continues, anything else is an
error). -/
def load_array_sep : Nat → toml_array_t → Nat → Nat → List Char → Mem →
    Option (Int × List Char × Mem × Nat)
  | 0, _, _, _, _, _ => none
  | fuel + 1, arr, offset, sp, input, mem =>
    let (tok, input1) := scan TOKBUFSIZ input
    match tok with
    | .RBRACKET => some (0, input1, mem, offset + 1)
    | .COMMA => load_array_loop fuel arr (offset + 1) sp input1 mem
    | _ => some (-1, input1, mem, offset + 1)
termination_by structural fuel => fuel

/-- load_array of toml.c: run the element loop starting from offset 0 and
the strings store pointer, then publish the element count on the success
paths. -/
def load_array : Nat → toml_array_t → List Char → Mem → Option (Int × List Char × Mem)
  | 0, _, _, _ => none
  | fuel + 1, arr, input, mem =>
    match load_array_loop fuel arr 0 arr.arr.readStringsStore input mem with
    | none => none
    | some (st, rest, m, off) =>
      if st = 0 then
        let m2 := match arr.count with
          | some a => m.write a (.i32 (wrap32 (Int.ofNat off)))
          | none => m
        some (0, rest, m2)
      else some (-1, rest, m)
termination_by structural fuel => fuel

/-- load_key_value of toml.c. -/
def load_key_value : Nat → List Char → List toml_key_t → Option toml_array_t →
    Nat → List Char → Mem → Option (Int × List Char × Mem)
  | 0, _, _, _, _, _, _ => none
  | fuel + 1, key, keys, array, offset, input, mem =>
    match toml_lookup keys key with
    | none => some (-1, input, mem)
    | some cursor =>
      let maxlen := if cursor.type = .string_t then cursor.len else TOKBUFSIZ
      let (tok1, input1) := scan TOKBUFSIZ input
      if tok1 ≠ .EQUAL then some (-1, input1, mem)
      else
        let (tok2, input2) := scan maxlen input1
        match tok2 with
        | .STRING s =>
          let (st, m) := load_kv_scalar cursor array offset maxlen true s mem
          some (st, input2, m)
        | .WORD s =>
          let (st, m) := load_kv_scalar cursor array offset maxlen false s mem
          some (st, input2, m)
        | .LBRACKET =>
          if cursor.type ≠ .array_t then some (-1, input2, mem)
          else load_array fuel cursor.addr.readArray input2 mem
        | .LBRACE =>
          if cursor.type ≠ .table_t then some (-1, input2, mem)
          else load_inline_table fuel cursor.addr.readKeys none 0 input2 mem
        | _ => some (-1, input2, mem)
termination_by structural fuel => fuel

/-- load_inline_table of toml.c.  A -1 from scan exits the while loop and
the function returns -1. -/
def load_inline_table : Nat → List toml_key_t → Option toml_array_t → Nat →
    List Char → Mem → Option (Int × List Char × Mem)
  | 0, _, _, _, _, _ => none
  | fuel + 1, keys, array, offset, input, mem =>
    let (tok, input1) := scan TOKBUFSIZ input
    match tok with
    | .ERR => some (-1, input1, mem)
    | .RBRACE => some (0, input1, mem)
    | .COMMA => load_inline_table fuel keys array offset input1 mem
    | .STRING s | .WORD s =>
      match load_key_value fuel s keys array offset input1 mem with
      | none => none
      | some (st, rest, m) =>
        if st = -1 then some (-1, rest, m)
        else load_inline_table fuel keys array offset rest m
    | _ => some (-1, input1, mem)
termination_by structural fuel => fuel

end

/-! ## toml.c document driver -/

/-- The mutable loop state of toml_load: active template scope, element
offset, active array of tables, and the key of the last array-of-tables
header. -/
structure TLState where
  curtab : List toml_key_t
  offset : Nat
  array : Option toml_array_t
  curkey : Option (List Char)

/-- Outcome of one header case of the toml_load switch. -/
inductive TLStep where
  | fail (rest : List Char) (mem : Mem)
  | cont (st : TLState) (rest : List Char) (mem : Mem)

/-- The case LDOUBLEBRACKET body of toml_load: scan the table name,
resolve it in the root template, require an array of tables, scan the
closing ]], advance or reset the element cursor by comparing with the
previous array-of-tables key, reject on reaching the capacity, and
publish index + 1 through the count pointer. -/
def toml_load_ldbl (keys : List toml_key_t) (st : TLState) (input : List Char)
    (mem : Mem) : TLStep :=
  let (tok, input1) := scan TOKBUFSIZ input
  match tok with
  | .WORD name | .STRING name =>
    match toml_lookup keys name with
    | none => .fail input1 mem
    | some cursor =>
      if cursor.type ≠ .array_t ∨ cursor.addr.readArray.type ≠ .table_t then .fail input1 mem
      else
        let (tok2, input2) := scan TOKBUFSIZ input1
        match tok2 with
        | .RDOUBLEBRACKET =>
          let (offset, curkey) :=
            if st.curkey = none ∨ st.curkey ≠ some cursor.key then (0, some cursor.key)
            else (st.offset + 1, st.curkey)
          let arr := cursor.addr.readArray
          if offset ≥ arr.maxlen then .fail input2 mem
          else
            let mem2 := match arr.count with
              | some a => mem.write a (.i32 (wrap32 (Int.ofNat (offset + 1))))
              | none => mem
            .cont ⟨arr.arr.readTablesSubtype, offset, some arr, curkey⟩ input2 mem2
        | _ => .fail input2 mem
  | _ => .fail input1 mem

/-- The case LBRACKET body of toml_load: scan the table name, resolve it
in the root template, require a table, scan the closing ], activate the
sub-template and clear the array context. -/
def toml_load_lbracket (keys : List toml_key_t) (st : TLState) (input : List Char)
    (mem : Mem) : TLStep :=
  let (tok, input1) := scan TOKBUFSIZ input
  match tok with
  | .WORD name | .STRING name =>
    match toml_lookup keys name with
    | none => .fail input1 mem
    | some cursor =>
      if cursor.type ≠ .table_t then .fail input1 mem
      else
        let (tok2, input2) := scan TOKBUFSIZ input1
        match tok2 with
        | .RBRACKET => .cont ⟨cursor.addr.readKeys, 0, none, st.curkey⟩ input2 mem
        | _ => .fail input2 mem
  | _ => .fail input1 mem

/-- The while loop of toml_load; scan returning -1 ends the parse with
success. -/
def toml_load_loop : Nat → List toml_key_t → TLState → List Char → Mem →
    Option (Int × Mem)
  | 0, _, _, _, _ => none
  | fuel + 1, keys, st, input, mem =>
    let (tok, input1) := scan TOKBUFSIZ input
    match tok with
    | .ERR => some (0, mem)
    | .LDOUBLEBRACKET =>
      match toml_load_ldbl keys st input1 mem with
      | .fail _ m => some (-1, m)
      | .cont st2 rest m => toml_load_loop fuel keys st2 rest m
    | .LBRACKET =>
      match toml_load_lbracket keys st input1 mem with
      | .fail _ m => some (-1, m)
      | .cont st2 rest m => toml_load_loop fuel keys st2 rest m
    | .STRING s | .WORD s =>
      match load_key_value fuel s st.curtab st.array st.offset input1 mem with
      | none => none
      | some (st2, rest, m) =>
        if st2 = -1 then some (-1, m)
        else toml_load_loop fuel keys st rest m
    | _ => some (-1, mem)

/-- toml_load of toml.c: the loop started on the root template with a
cleared cursor. -/
def toml_load (fuel : Nat) (keys : List toml_key_t) (input : List Char)
    (mem : Mem) : Option (Int × Mem) :=
  toml_load_loop fuel keys ⟨keys, 0, none, none⟩ input mem

/-! ## lex.c

The newer scanner.  The input pointer walking a NUL-terminated string is
modelled as the pair past/future of consumed and remaining characters;
atEOF mirrors the flag of the source.  Character values are Option Char
with none for lex_eof.  The item buffer writes of the source are
collected in an accumulator and stored into the item at each return.
Error messages are carried as their format strings (printf substitutions
dropped); nothing depends on the message text. -/

inductive LItemType where
  | lex_eof
  | lex_ERROR
  | lex_LEFT_BRACKETS
  | lex_RIGHT_BRACKETS
  | lex_BARE_KEY
  | lex_NEWLINE
  | lex_STRING
  | lex_INTEGER
  | lex_FLOAT
  | lex_BOOL
  | lex_TIME
  | chr (c : Char)
deriving DecidableEq

structure LexItem where
  type : LItemType
  val : List Char
deriving DecidableEq

structure LexState where
  past : List Char
  future : List Char
  atEOF : Bool
  lineno : Int
  item : LexItem

/-- The single-quote character (written by code so that no quote literal
appears in patterns). -/
def squote : Char := Char.ofNat 39

/-- lex_next: consume and return the next character; at the end of the
input set atEOF and return lex_eof. -/
def lex_next (lex : LexState) : Option Char × LexState :=
  match lex.future with
  | [] => (none, { lex with atEOF := true })
  | c :: rest =>
    (some c,
      { lex with
        past := c :: lex.past,
        future := rest,
        lineno := if c = '\n' then lex.lineno + 1 else lex.lineno })

/-- lex_backup: step back one character.  The source tests the character
at the current (already advanced) pointer when adjusting the line
counter, which is what the head of future is here. -/
def lex_backup (lex : LexState) : LexState :=
  if lex.atEOF then { lex with atEOF := false }
  else
    match lex.past with
    | [] => lex
    | c :: p =>
      { lex with
        past := p,
        future := c :: lex.future,
        lineno := if lex.future.head? = some '\n' then lex.lineno - 1 else lex.lineno }

/-- lex_peek: lex_next then lex_backup. -/
def lex_peek (lex : LexState) : Option Char × LexState :=
  let (c, l1) := lex_next lex
  (c, lex_backup l1)

/-- lex_accept: consume the next character when it belongs to the valid
set; otherwise push it back.  The result is the accepted character. -/
def lex_accept (lex : LexState) (valid : List Char) : Option Char × LexState :=
  let (c, l1) := lex_next lex
  match c with
  | some ch => if valid.contains ch then (some ch, l1) else (none, lex_backup l1)
  | none => (none, lex_backup l1)

/-- lex_endofline: recognize \r, \n or \r\n; after \r a character that is
neither \n nor eof is pushed back. -/
def lex_endofline (lex : LexState) (c : Option Char) : Bool × LexState :=
  let eol := c = some '\r' ∨ c = some '\n'
  if c = some '\r' then
    let (c2, l1) := lex_next lex
    if c2 ≠ some '\n' ∧ c2 ≠ none then (eol, lex_backup l1) else (eol, l1)
  else (eol, lex)

/-- lex_errorf: record the message in the item and return lex_ERROR. -/
def lex_errorf (lex : LexState) (msg : List Char) : LItemType × LexState :=
  (.lex_ERROR, { lex with item := ⟨.lex_ERROR, msg⟩ })

def msgNlBeforeQuote : List Char := "saw \x27\\n\x27 before \x27\"\x27".toList

def msgEofBeforeQuote : List Char := "saw eof before \x27\"\x27".toList

/-- lex_escape: consume one escaped character; the u/U cases break out of
the switch and fall to the invalid-escape error, as in the source.  none
means the error return (the item already holds the message). -/
def lex_escape (lex : LexState) : Option Char × LexState :=
  let (c, l1) := lex_next lex
  match c with
  | some 'b' => (some '\x08', l1)
  | some 'f' => (some '\x0c', l1)
  | some 'n' => (some '\n', l1)
  | some 'r' => (some '\r', l1)
  | some 't' => (some '\t', l1)
  | some '"' => (some '"', l1)
  | some '\\' => (some '\\', l1)
  | _ =>
    let e := lex_errorf l1 ("invalid escape sequence".toList)
    (none, e.2)

/-- Shared loop shape: consume characters, appending them, until a
character satisfying stop is consumed (returned as the middle component)
or the input ends (none). -/
def lex_take_until (fuel : Nat) (stop : Char → Bool) (lex : LexState)
    (acc : List Char) : Option (Option Char × List Char × LexState) :=
  match fuel with
  | 0 => none
  | fuel + 1 =>
    let (c, l1) := lex_next lex
    match c with
    | some ch =>
      if stop ch then some (some ch, acc, l1)
      else lex_take_until fuel stop l1 (acc ++ [ch])
    | none => some (none, acc, l1)

/-- The digit loops of the number scanners: consume digits of the given
class, dropping underscores, until a character outside the class is
consumed (the source does not push that character back in these loops). -/
def lex_radix_digits (fuel : Nat) (isDig : Char → Bool) (lex : LexState)
    (acc : List Char) : Option (List Char × LexState) :=
  match fuel with
  | 0 => none
  | fuel + 1 =>
    let (c, l1) := lex_next lex
    match c with
    | some ch =>
      if isDig ch then lex_radix_digits fuel isDig l1 (acc ++ [ch])
      else if ch = '_' then lex_radix_digits fuel isDig l1 acc
      else some (acc, l1)
    | none => some (acc, l1)

/-- The plain digit run: for (; isdigit(c = lex_next(lex)); p++) *p = c.
Returns the first non-digit, consumed. -/
def lex_digits (fuel : Nat) (lex : LexState) (acc : List Char) :
    Option (Option Char × List Char × LexState) :=
  match fuel with
  | 0 => none
  | fuel + 1 =>
    let (c, l1) := lex_next lex
    match c with
    | some ch =>
      if isdigitC ch then lex_digits fuel l1 (acc ++ [ch])
      else some (some ch, acc, l1)
    | none => some (none, acc, l1)

/-- while (lex_accept(lex, valid, &c)) store c (dropping underscores when
skipUnderscore). -/
def lex_accept_loop (fuel : Nat) (valid : List Char) (skipUnderscore : Bool)
    (lex : LexState) (acc : List Char) : Option (List Char × LexState) :=
  match fuel with
  | 0 => none
  | fuel + 1 =>
    match lex_accept lex valid with
    | (some ch, l1) =>
      if skipUnderscore ∧ ch = '_' then lex_accept_loop fuel valid skipUnderscore l1 acc
      else lex_accept_loop fuel valid skipUnderscore l1 (acc ++ [ch])
    | (none, l1) => some (acc, l1)

/-- lex_scan_decimal_number. -/
def lex_scan_decimal_number (lex : LexState) : Option (LItemType × LexState) :=
  let (sc, l1) := lex_accept lex ['+', '-']
  let acc1 := match sc with | some ch => [ch] | none => []
  match lex_digits (l1.future.length + 1) l1 acc1 with
  | none => none
  | some (c, acc2, l2) =>
    if c = some '.' ∨ c = some 'e' ∨ c = some 'E' then
      match lex_accept_loop (l2.future.length + 1) "0123456789eE+-._".toList true l2
          (acc2 ++ c.toList) with
      | none => none
      | some (acc3, l3) => some (.lex_FLOAT, { l3 with item := ⟨.lex_FLOAT, acc3⟩ })
    else
      let l3 := lex_backup l2
      match lex_radix_digits (l3.future.length + 1) isdigitC l3 acc2 with
      | none => none
      | some (acc3, l4) =>
        let l5 := lex_backup l4
        some (.lex_INTEGER, { l5 with item := ⟨.lex_INTEGER, acc3⟩ })

/-- The tail of lex_scan_number_or_date after the radix-prefix dispatch:
plain digits, then float, underscored integer, date-time, or integer. -/
def lex_scan_nod_rest (lex : LexState) (acc : List Char) :
    Option (LItemType × LexState) :=
  match lex_digits (lex.future.length + 1) lex acc with
  | none => none
  | some (c, acc2, l2) =>
    if c = some '.' ∨ c = some 'e' ∨ c = some 'E' then
      match lex_accept_loop (l2.future.length + 1) "0123456789eE+-._".toList true l2
          (acc2 ++ c.toList) with
      | none => none
      | some (acc3, l3) => some (.lex_FLOAT, { l3 with item := ⟨.lex_FLOAT, acc3⟩ })
    else if c = some '_' then
      match lex_radix_digits (l2.future.length + 1) isdigitC l2 acc2 with
      | none => none
      | some (acc3, l3) =>
        let l4 := lex_backup l3
        some (.lex_INTEGER, { l4 with item := ⟨.lex_INTEGER, acc3⟩ })
    else if c = some '-' ∨ c = some ':' then
      match lex_accept_loop (l2.future.length + 1) "0123456789+-.tT: Zz".toList false l2
          (acc2 ++ c.toList) with
      | none => none
      | some (acc3, l3) => some (.lex_TIME, { l3 with item := ⟨.lex_TIME, acc3⟩ })
    else
      let l3 := lex_backup l2
      some (.lex_INTEGER, { l3 with item := ⟨.lex_INTEGER, acc2⟩ })

/-- lex_scan_number_or_date: a leading 0 followed by x, o or b selects
hexadecimal, octal or binary digits (underscores dropped, prefix kept in
the item text, terminator not pushed back); otherwise the plain scan. -/
def lex_scan_number_or_date (lex : LexState) : Option (LItemType × LexState) :=
  let (p0, l0) := lex_peek lex
  if p0 = some '0' then
    let (_, l1) := lex_next l0
    let (c, l2) := lex_next l1
    if c = some 'x' then
      match lex_radix_digits (l2.future.length + 1) isxdigitC l2 ['0', 'x'] with
      | none => none
      | some (acc, l3) => some (.lex_INTEGER, { l3 with item := ⟨.lex_INTEGER, acc⟩ })
    else if c = some 'o' then
      match lex_radix_digits (l2.future.length + 1) (fun ch => '0' ≤ ch && ch ≤ '7') l2 ['0', 'o'] with
      | none => none
      | some (acc, l3) => some (.lex_INTEGER, { l3 with item := ⟨.lex_INTEGER, acc⟩ })
    else if c = some 'b' then
      match lex_radix_digits (l2.future.length + 1) (fun ch => ch = '0' || ch = '1') l2 ['0', 'b'] with
      | none => none
      | some (acc, l3) => some (.lex_INTEGER, { l3 with item := ⟨.lex_INTEGER, acc⟩ })
    else
      lex_scan_nod_rest (lex_backup l2) ['0']
  else
    lex_scan_nod_rest l0 []

/-- lex_scan_literal_string. -/
def lex_scan_literal_string (lex : LexState) : Option (LItemType × LexState) :=
  match lex_take_until (lex.future.length + 1)
      (fun ch => ch = squote || ch = '\r' || ch = '\n') lex [] with
  | none => none
  | some (c, acc, l1) =>
    if c = some squote then some (.lex_STRING, { l1 with item := ⟨.lex_STRING, acc⟩ })
    else if c = some '\r' ∨ c = some '\n' then some (lex_errorf l1 msgNlBeforeQuote)
    else some (lex_errorf l1 msgEofBeforeQuote)

/-- lex_scan_ml_literal_string: a stub in the source; returns lex_STRING
without touching the item. -/
def lex_scan_ml_literal_string (lex : LexState) : Option (LItemType × LexState) :=
  some (.lex_STRING, lex)

/-- The loop of lex_scan_string (basic single-line string with escapes). -/
def lex_scan_string_loop (fuel : Nat) (lex : LexState) (acc : List Char) :
    Option (LItemType × LexState) :=
  match fuel with
  | 0 => none
  | fuel + 1 =>
    let (c, l1) := lex_next lex
    match c with
    | none => some (lex_errorf l1 msgEofBeforeQuote)
    | some ch =>
      if ch = '"' then some (.lex_STRING, { l1 with item := ⟨.lex_STRING, acc⟩ })
      else if ch = '\r' ∨ ch = '\n' then some (lex_errorf l1 msgNlBeforeQuote)
      else if ch = '\\' then
        match lex_escape l1 with
        | (none, l2) => some (.lex_ERROR, l2)
        | (some e, l2) => lex_scan_string_loop fuel l2 (acc ++ [e])
      else lex_scan_string_loop fuel l1 (acc ++ [ch])

/-- lex_scan_string. -/
def lex_scan_string (lex : LexState) : Option (LItemType × LexState) :=
  lex_scan_string_loop (lex.future.length + 2) lex []

/-- The quote-counting loop of lex_scan_ml_string:
for (n = 0; (c = lex_next(lex)) == quote; n++). -/
def lex_ml_quotes (fuel : Nat) (lex : LexState) (n : Nat) :
    Option (Nat × Option Char × LexState) :=
  match fuel with
  | 0 => none
  | fuel + 1 =>
    let (c, l1) := lex_next lex
    if c = some '"' then lex_ml_quotes fuel l1 (n + 1)
    else some (n, c, l1)

/-- The line-continuation whitespace loop of lex_scan_ml_string:
while (isspace(c = lex_next(lex))) ; lex_backup(lex). -/
def lex_ml_ws (fuel : Nat) (lex : LexState) : Option LexState :=
  match fuel with
  | 0 => none
  | fuel + 1 =>
    let (c, l1) := lex_next lex
    match c with
    | some ch => if isspaceC ch then lex_ml_ws fuel l1 else some (lex_backup l1)
    | none => some (lex_backup l1)

def msgEofBeforeTriple : List Char := "saw eof before \"\"\"".toList

def msgTooManyQuotes : List Char :=
  "too many double quotes at the end of multiline string".toList

/-- The main loop of lex_scan_ml_string, in source order: a run of 3 to 5
quotes ends the string (4 and 5 emit one and two literal quotes first);
eof before that is an error; a run of 6 or more is an error; shorter runs
are content; backslash before whitespace is a line continuation, backslash
otherwise an escape. -/
def lex_scan_ml_string_loop (fuel : Nat) (lex : LexState) (acc : List Char) :
    Option (LItemType × LexState) :=
  match fuel with
  | 0 => none
  | fuel + 1 =>
    match lex_ml_quotes (lex.future.length + 1) lex 0 with
    | none => none
    | some (n, c, l1) =>
      if n = 3 ∨ n = 4 ∨ n = 5 then
        let l2 := lex_backup l1
        let acc2 := if n = 4 then acc ++ ['"'] else if n = 5 then acc ++ ['"', '"'] else acc
        some (.lex_STRING, { l2 with item := ⟨.lex_STRING, acc2⟩ })
      else if c = none then some (lex_errorf l1 msgEofBeforeTriple)
      else if n > 5 then some (lex_errorf l1 msgTooManyQuotes)
      else
        let acc2 := acc ++ List.replicate n '"'
        match c with
        | some ch =>
          if ch = '\\' then
            let (pk, l2) := lex_peek l1
            if (match pk with | some p => isspaceC p | none => false) then
              match lex_ml_ws (l2.future.length + 1) l2 with
              | none => none
              | some l3 => lex_scan_ml_string_loop fuel l3 acc2
            else
              match lex_escape l2 with
              | (none, l3) => some (.lex_ERROR, l3)
              | (some e, l3) => lex_scan_ml_string_loop fuel l3 (acc2 ++ [e])
          else lex_scan_ml_string_loop fuel l1 (acc2 ++ [ch])
        | none =>
          -- unreachable: the c = none case was returned above
          some (lex_errorf l1 msgEofBeforeTriple)

/-- lex_scan_ml_string: trim one line ending right after the opening
quotes, then run the loop. -/
def lex_scan_ml_string (lex : LexState) : Option (LItemType × LexState) :=
  let (c, l1) := lex_next lex
  let (eol, l2) := lex_endofline l1 c
  let l3 := if eol then l2 else lex_backup l2
  lex_scan_ml_string_loop (l3.future.length + 2) l3 []

def identChar (c : Char) : Bool := isalnumC c || c = '_' || c = '-'

/-- lex_scan_identifier: consume the identifier, push back the terminator,
classify true/false as BOOL, the inf/nan spellings as FLOAT, anything
else as BARE_KEY. -/
def lex_scan_identifier (lex : LexState) : Option (LItemType × LexState) :=
  match lex_take_until (lex.future.length + 1) (fun ch => !identChar ch) lex [] with
  | none => none
  | some (_, acc, l1) =>
    let l2 := lex_backup l1
    let t : LItemType :=
      if acc = "true".toList ∨ acc = "false".toList then .lex_BOOL
      else if acc = "inf".toList ∨ acc = "-inf".toList ∨
          acc = "nan".toList ∨ acc = "-nan".toList then .lex_FLOAT
      else .lex_BARE_KEY
    some (t, { l2 with item := ⟨t, acc⟩ })

/-- The signed-value branch of lex_scan_next (lines handling a leading +
or -): inf and nan spellings, the sign-with-dot and sign-with-radix-prefix
errors, otherwise a signed decimal number. -/
def lex_signed (sign : Char) (lex : LexState) : Option (LItemType × LexState) :=
  let (cc, l1) := lex_next lex
  if cc = some 'i' then
    let (c2, l2) := lex_next l1
    if c2 ≠ some 'n' then some (lex_errorf l2 "invalid float".toList)
    else
      let (c3, l3) := lex_next l2
      if c3 ≠ some 'f' then some (lex_errorf l3 "invalid float".toList)
      else
        let (pk, l4) := lex_peek l3
        if pk ≠ none ∧ pk ≠ some '\r' ∧ pk ≠ some '\n' ∧ pk ≠ some ' ' then
          some (lex_errorf l4 "invalid float".toList)
        else some (.lex_FLOAT, { l4 with item := ⟨.lex_FLOAT, sign :: "inf".toList⟩ })
  else if cc = some 'n' then
    let (c2, l2) := lex_next l1
    if c2 ≠ some 'a' then some (lex_errorf l2 "invalid float".toList)
    else
      let (c3, l3) := lex_next l2
      if c3 ≠ some 'n' then some (lex_errorf l3 "invalid float".toList)
      else
        let (pk, l4) := lex_peek l3
        if pk ≠ none ∧ pk ≠ some '\r' ∧ pk ≠ some '\n' ∧ pk ≠ some ' ' then
          some (lex_errorf l4 "invalid float".toList)
        else some (.lex_FLOAT, { l4 with item := ⟨.lex_FLOAT, sign :: "nan".toList⟩ })
  else if cc = some '.' then
    some (lex_errorf l1 "floats cannot start with a \x27.\x27".toList)
  else
    let (l2, bad) :=
      if cc = some '0' then
        let (pk, l2) := lex_peek l1
        (l2, pk = some 'x' || pk = some 'o' || pk = some 'b')
      else (l1, false)
    if bad then some (lex_errorf l2 "cannot use sign with non-decimal numbers".toList)
    else lex_scan_decimal_number (lex_backup (lex_backup l2))

/-- The leading whitespace loop of lex_scan_next. -/
def lex_skip_spaces (fuel : Nat) (lex : LexState) : Option (Option Char × LexState) :=
  match fuel with
  | 0 => none
  | fuel + 1 =>
    let (c, l1) := lex_next lex
    if c = some ' ' ∨ c = some '\t' then lex_skip_spaces fuel l1
    else some (c, l1)

/-- The comment loop of lex_scan_next: consume through the line end, and
repeat while the next character is another hash. -/
def lex_comment_loop (fuel : Nat) (lex : LexState) : Option (Option Char × LexState) :=
  match fuel with
  | 0 => none
  | fuel + 1 =>
    match lex_take_until (lex.future.length + 1) (fun ch => ch = '\r' || ch = '\n') lex [] with
    | none => none
    | some (c, _, l1) =>
      let (pk, l2) := lex_peek l1
      if pk = some '#' then lex_comment_loop fuel l2
      else some (c, l2)

/-- lex_scan_next of lex.c. -/
def lex_scan_next (lex : LexState) : Option (LItemType × LexState) :=
  match lex_skip_spaces (lex.future.length + 1) lex with
  | none => none
  | some (c0, l0) =>
    match (if c0 = some '#' then lex_comment_loop (l0.future.length + 2) l0 else some (c0, l0)) with
    | none => none
    | some (c, l1) =>
      match c with
      | none => some (.lex_eof, { l1 with item := ⟨.lex_eof, []⟩ })
      | some ch =>
        let (eol, l2) := lex_endofline l1 (some ch)
        if eol then some (.lex_NEWLINE, { l2 with item := ⟨.lex_NEWLINE, []⟩ })
        else if ch = '[' then
          let (c2, l3) := lex_next l2
          if c2 = some '[' then
            some (.lex_LEFT_BRACKETS, { l3 with item := ⟨.lex_LEFT_BRACKETS, "[[".toList⟩ })
          else
            let l4 := lex_backup l3
            some (.chr '[', { l4 with item := ⟨.chr '[', "[".toList⟩ })
        else if ch = ']' then
          let (c2, l3) := lex_next l2
          if c2 = some ']' then
            some (.lex_RIGHT_BRACKETS, { l3 with item := ⟨.lex_RIGHT_BRACKETS, "]]".toList⟩ })
          else
            let l4 := lex_backup l3
            some (.chr ']', { l4 with item := ⟨.chr ']', "]".toList⟩ })
        else if ch = '=' then some (.chr '=', { l2 with item := ⟨.chr '=', "=".toList⟩ })
        else if ch = '{' then some (.chr '{', { l2 with item := ⟨.chr '{', "\x7b".toList⟩ })
        else if ch = '}' then some (.chr '}', { l2 with item := ⟨.chr '}', "\x7d".toList⟩ })
        else if ch = ',' then some (.chr ',', { l2 with item := ⟨.chr ',', ",".toList⟩ })
        else if ch = '.' then some (.chr '.', { l2 with item := ⟨.chr '.', ".".toList⟩ })
        else if ch = '"' then
          let (c2, l3) := lex_next l2
          if c2 = some '"' then
            let (c3, l4) := lex_next l3
            if c3 = some '"' then lex_scan_ml_string l4
            else
              let l5 := lex_backup l4
              some (.lex_STRING, { l5 with item := ⟨.lex_STRING, []⟩ })
          else lex_scan_string (lex_backup l3)
        else if ch = squote then
          let (c2, l3) := lex_next l2
          if c2 = some squote then
            let (c3, l4) := lex_next l3
            if c3 = some squote then lex_scan_ml_literal_string l4
            else
              let l5 := lex_backup l4
              some (.lex_STRING, { l5 with item := ⟨.lex_STRING, []⟩ })
          else lex_scan_literal_string (lex_backup l3)
        else if ch = '-' then
          let (pk, l3) := lex_peek l2
          if (match pk with | some p => isalphaC p || p = '-' || p = '_' | none => false) then
            lex_scan_identifier (lex_backup l3)
          else lex_signed ch l3
        else if ch = '+' then lex_signed ch l2
        else if isdigitC ch then lex_scan_number_or_date (lex_backup l2)
        else if isalphaC ch ∨ ch = '_' then lex_scan_identifier (lex_backup l2)
        else some (lex_errorf l2 "unexpected character".toList)

/-- lex_init. -/
def lex_init (input : List Char) : LexState :=
  { past := [], future := input, atEOF := false, lineno := 1,
    item := ⟨.lex_ERROR, []⟩ }

/-! ## Parts of toml_unmarshal modelled from the spec

The repository sources include toml.h (declaring toml_unmarshal), lex.c
(its scanner) and toml_test.c (its tests), but not the translation unit
implementing toml_unmarshal itself.  The definitions here model, from the
spec, exactly the two pieces of that missing binder/driver that the
claims need. -/

/-- Modelled from the spec: the integer conversion of the value binder of
toml_unmarshal, whose implementing translation unit is missing from the
sources (only its declaration in toml.h and its callers in toml_test.c
are present).  Spec: integer tokens are parsed with the full prefix-aware
radix (hexadecimal, octal, binary, decimal) after stripping underscores;
overflow of the widest signed integer is a bind error. -/
def spec_int_convert (s : List Char) : Option Int :=
  let s0 := s.filter (fun c => c ≠ '_')
  let (neg, s1) :=
    match s0 with
    | '-' :: r => (true, r)
    | '+' :: r => (false, r)
    | r => (false, r)
  let conv : (Char → Bool) → Nat → List Char → Option Nat := fun isDig base l =>
    if l ≠ [] ∧ l.all isDig then
      some (l.foldl (fun acc c => acc * base + hexDigitVal c) 0)
    else none
  let mag : Option Nat :=
    match s1 with
    | '0' :: 'x' :: r => conv isxdigitC 16 r
    | '0' :: 'o' :: r => conv (fun c => '0' ≤ c && c ≤ '7') 8 r
    | '0' :: 'b' :: r => conv (fun c => c = '0' || c = '1') 2 r
    | l => conv isdigitC 10 l
  match mag with
  | none => none
  | some m =>
    let v : Int := if neg then -(m : Int) else (m : Int)
    if v > longMax ∨ v < longMin then none else some v

/-- Modelled from the spec: one expression of the toml_unmarshal top
level, after its first item has been scanned: a key/value pair (key,
equal sign, scalar value), a [table] header, or a [[array-of-tables]]
header.  Schema resolution and binding are irrelevant to the line
discipline and are not modelled. -/
def spec_expr_after (itm : LItemType) (lex : LexState) : Option LexState :=
  if itm = .lex_BARE_KEY ∨ itm = .lex_STRING then
    match lex_scan_next lex with
    | some (.chr '=', l1) =>
      match lex_scan_next l1 with
      | some (t, l2) =>
        if t = .lex_STRING ∨ t = .lex_INTEGER ∨ t = .lex_FLOAT ∨
            t = .lex_BOOL ∨ t = .lex_TIME then some l2
        else none
      | none => none
    | _ => none
  else if itm = .chr '[' then
    match lex_scan_next lex with
    | some (t, l1) =>
      if t = .lex_BARE_KEY ∨ t = .lex_STRING then
        match lex_scan_next l1 with
        | some (.chr ']', l2) => some l2
        | _ => none
      else none
    | none => none
  else if itm = .lex_LEFT_BRACKETS then
    match lex_scan_next lex with
    | some (t, l1) =>
      if t = .lex_BARE_KEY ∨ t = .lex_STRING then
        match lex_scan_next l1 with
        | some (.lex_RIGHT_BRACKETS, l2) => some l2
        | _ => none
      else none
    | none => none
  else none

/-- Modelled from the spec: the top level of toml_unmarshal, whose
implementing translation unit is missing from the sources.  Spec: parse
one expression per non-blank line; a line must end in Newline or end of
input; anything else is a syntax error.  some true is success, some false
a syntax error. -/
def spec_toplevel (fuel : Nat) (lex : LexState) : Option Bool :=
  match fuel with
  | 0 => none
  | fuel + 1 =>
    match lex_scan_next lex with
    | none => none
    | some (t, l1) =>
      if t = .lex_eof then some true
      else if t = .lex_NEWLINE then spec_toplevel fuel l1
      else
        match spec_expr_after t l1 with
        | none => some false
        | some l2 =>
          match lex_scan_next l2 with
          | none => none
          | some (t2, l3) =>
            if t2 = .lex_NEWLINE then spec_toplevel fuel l3
            else if t2 = .lex_eof then some true
            else some false

/-! ## Claims -/

/-- C1: for a scalar string-kind descriptor the address dispatch should
return the address of the own string buffer of that descriptor without
the result being replaced by the integer branch.  The toml.c revision
(called with no enclosing array) behaves this way: its string_t case
returns the read of the string member.  The mtoml.c revision violates it:
its string_t case has no break, so the assignment that reaches the return
is the one of the integer branch (the same stored word read through the
integer member).  This theorem evaluates both dispatches at a concrete
string-kind descriptor. -/
theorem c1_target_address_string_dispatch :
    target_address (.mk ("device".toList) .string_t (.ptr 800) 16) none 0 =
      some (AddrField.string, 800)
  ∧ mtoml_target_address ⟨"device".toList, .string_t, 800, 16⟩ =
      some (AddrField.integer, 800) := by
  exact ⟨rfl, rfl⟩

/-- An integer-kind scalar descriptor used by the C5 binding runs. -/
def c5key : toml_key_t := .mk ("x".toList) .integer_t (.ptr 500) 0

/-- An integer-kind scalar descriptor used by the C6 binding runs. -/
def c6key : toml_key_t := .mk ("x".toList) .integer_t (.ptr 500) 0

/-- C5: the claim fails on the binder that is present in the sources.  The
lexer (lex.c) does tokenize 0xFF, 0o17 and 0b101 as INTEGER items with the
prefix kept, and the prefix-aware conversion the spec demands yields 255,
15 and 5.  But the present binder, load_key_value of toml.c, converts the
token with strtol base 0, which recognizes only the 0x prefix: binding
0xFF stores 255, yet binding 0o17 and 0b101 succeeds silently and stores 0
in both cases (strtol parses the leading 0 and stops at the letter),
diverging from the demanded 15 and 5. -/
theorem c5_radix_binding_diverges :
    ((lex_scan_next (lex_init ("0xFF".toList))).map (fun r => (r.1, r.2.item.val)) =
      some (.lex_INTEGER, "0xFF".toList))
  ∧ ((lex_scan_next (lex_init ("0o17".toList))).map (fun r => (r.1, r.2.item.val)) =
      some (.lex_INTEGER, "0o17".toList))
  ∧ ((lex_scan_next (lex_init ("0b101".toList))).map (fun r => (r.1, r.2.item.val)) =
      some (.lex_INTEGER, "0b101".toList))
  ∧ ((toml_load 9 [c5key] ("x = 0xFF".toList) memInit).map (fun r => (r.1, r.2 500)) =
      some (0, .i32 255))
  ∧ ((toml_load 9 [c5key] ("x = 0o17".toList) memInit).map (fun r => (r.1, r.2 500)) =
      some (0, .i32 0))
  ∧ ((toml_load 9 [c5key] ("x = 0b101".toList) memInit).map (fun r => (r.1, r.2 500)) =
      some (0, .i32 0))
  ∧ spec_int_convert ("0xFF".toList) = some 255
  ∧ spec_int_convert ("0o17".toList) = some 15
  ∧ spec_int_convert ("0b101".toList) = some 5 := by
  refine ⟨by decide, by decide, by decide, by decide, by decide, by decide,
    by decide, by decide, by decide⟩

/-- C6: the claim fails on the binder that is present in the sources.  The
lexer (lex.c) does strip underscores, producing identical items for
5_349_221 and 5349221, and the spec conversion of 5_349_221 is 5349221.
But the present pipeline - scan_word of toml.c keeps underscores in the
token and load_key_value converts it with strtol, which stops at the first
underscore - binds x = 5_349_221 successfully and silently stores 5, while
x = 5349221 stores 5349221: the two inputs do not bind the same integer. -/
theorem c6_underscore_binding_diverges :
    ((lex_scan_next (lex_init ("5_349_221".toList))).map (fun r => (r.1, r.2.item.val)) =
      (lex_scan_next (lex_init ("5349221".toList))).map (fun r => (r.1, r.2.item.val)))
  ∧ ((lex_scan_next (lex_init ("5_349_221".toList))).map (fun r => (r.1, r.2.item.val)) =
      some (.lex_INTEGER, "5349221".toList))
  ∧ ((toml_load 9 [c6key] ("x = 5_349_221".toList) memInit).map (fun r => (r.1, r.2 500)) =
      some (0, .i32 5))
  ∧ ((toml_load 9 [c6key] ("x = 5349221".toList) memInit).map (fun r => (r.1, r.2 500)) =
      some (0, .i32 5349221))
  ∧ spec_int_convert ("5_349_221".toList) = some 5349221 := by
  refine ⟨by decide, by decide, by decide, by decide, by decide⟩

/-! ### C3 lemmas: the trailing-quote run of a basic multiline string -/

/-- Running the quote-counting loop over a run of k quotes followed by a
non-quote character: the count is advanced by k and the terminator is
consumed. -/
theorem lex_ml_quotes_run (k : Nat) :
    ∀ (lex : LexState) (c : Char) (rest : List Char) (n fuel : Nat),
    lex.future = List.replicate k '"' ++ c :: rest →
    c ≠ '"' →
    k + 1 ≤ fuel →
    lex_ml_quotes fuel lex n =
      some (n + k, some c,
        { lex with
          past := c :: (List.replicate k '"' ++ lex.past),
          future := rest,
          lineno := if c = '\n' then lex.lineno + 1 else lex.lineno }) := by
  induction k with
  | zero =>
    intro lex c rest n fuel hf hc hfuel
    match fuel, hfuel with
    | fuel + 1, _ =>
      simp [lex_ml_quotes, lex_next, hf, hc]
  | succ k ih =>
    intro lex c rest n fuel hf hc hfuel
    match fuel, hfuel with
    | fuel + 1, hfuel =>
      have hf2 : lex.future = '"' :: (List.replicate k '"' ++ c :: rest) := by
        simpa [List.replicate_succ] using hf
      have step : lex_ml_quotes (fuel + 1) lex n =
          lex_ml_quotes fuel
            { lex with past := '"' :: lex.past,
                       future := List.replicate k '"' ++ c :: rest } (n + 1) := by
        simp [lex_ml_quotes, lex_next, hf2]
      rw [step, ih _ c rest (n + 1) fuel (by simp) hc (by omega)]
      congr 1
      congr 1
      · omega
      · simp [List.replicate_succ']

/-- One content character (not a quote, not a backslash) is consumed and
appended by the multiline loop. -/
theorem lex_ml_loop_simple_step (fuel : Nat) (lex : LexState) (acc : List Char)
    (c : Char) (rest : List Char)
    (hf : lex.future = c :: rest) (hq : c ≠ '"') (hb : c ≠ '\\') :
    lex_scan_ml_string_loop (fuel + 1) lex acc =
      lex_scan_ml_string_loop fuel
        { lex with past := c :: lex.past, future := rest,
                   lineno := if c = '\n' then lex.lineno + 1 else lex.lineno }
        (acc ++ [c]) := by
  have hq0 := lex_ml_quotes_run 0 lex c rest 0 (lex.future.length + 1)
    (by simpa using hf) hq (by omega)
  simp only [List.replicate_zero, List.nil_append, Nat.add_zero] at hq0
  simp [lex_scan_ml_string_loop, hq0, hb, hq]

/-- Running the multiline loop over simple content followed by the
terminating quote run: 3 to 5 quotes give a STRING whose text is the
content plus k - 3 literal quotes; 6 or more give the too-many-quotes
error. -/
theorem lex_ml_loop_content (s : List Char) :
    ∀ (lex : LexState) (acc : List Char) (k : Nat) (tail : List Char) (fuel : Nat),
    (∀ c ∈ s, c ≠ '\x22' ∧ c ≠ '\\' ∧ c ≠ '\x0d' ∧ c ≠ '\n') →
    3 ≤ k →
    lex.future = s ++ List.replicate k '\x22' ++ '\n' :: tail →
    lex.atEOF = false →
    s.length + 1 ≤ fuel →
    (k ≤ 5 →
      (lex_scan_ml_string_loop fuel lex acc).map (fun r => (r.1, r.2.item)) =
        some (.lex_STRING, ⟨.lex_STRING, acc ++ s ++ List.replicate (k - 3) '\x22'⟩))
    ∧ (6 ≤ k →
      (lex_scan_ml_string_loop fuel lex acc).map (fun r => (r.1, r.2.item)) =
        some (.lex_ERROR, ⟨.lex_ERROR, msgTooManyQuotes⟩)) := by
  induction s with
  | nil =>
    intro lex acc k tail fuel hs hk3 hf heof hfuel
    match fuel, hfuel with
    | fuel + 1, _ =>
      have hq := lex_ml_quotes_run k lex '\n' tail 0 (lex.future.length + 1)
        (by simpa using hf) (by decide)
        (by rw [hf]; simp only [List.length_append, List.length_replicate, List.length_cons]; omega)
      constructor
      · intro hk5
        simp only [lex_scan_ml_string_loop, hq]
        interval_cases k <;> simp [lex_backup, heof]
      · intro hk6
        simp only [lex_scan_ml_string_loop, hq]
        simp [lex_errorf, show ¬(k = 3 ∨ k = 4 ∨ k = 5) from by omega,
          show 5 < k from by omega]
  | cons c s ih =>
    intro lex acc k tail fuel hs hk3 hf heof hfuel
    obtain ⟨hq, hb, hr, hn⟩ := hs c (by simp)
    match fuel, hfuel with
    | fuel + 1, hfuel =>
      rw [lex_ml_loop_simple_step fuel lex acc c (s ++ List.replicate k '\x22' ++ '\n' :: tail)
        (by simpa using hf) hq hb]
      have := ih { lex with past := c :: lex.past,
                            future := s ++ List.replicate k '\x22' ++ '\n' :: tail,
                            lineno := if c = '\n' then lex.lineno + 1 else lex.lineno }
        (acc ++ [c]) k tail fuel (fun d hd => hs d (by simp [hd])) hk3 (by simp) heof
        (by simp only [List.length_cons] at hfuel; omega)
      constructor
      · intro hk5
        have h1 := this.1 hk5
        simpa using h1
      · intro hk6
        exact this.2 hk6

/-- When the character right after the opening quotes is not a line
ending (and the one after it is not a newline, so the pushback leaves the
line counter alone), lex_scan_ml_string is just its loop. -/
theorem lex_scan_ml_string_no_trim (lex : LexState) (a b : Char) (r : List Char)
    (hf : lex.future = a :: b :: r) (heof : lex.atEOF = false)
    (ha1 : a ≠ '\x0d') (ha2 : a ≠ '\n') (hb : b ≠ '\n') :
    lex_scan_ml_string lex =
      lex_scan_ml_string_loop (lex.future.length + 2) lex [] := by
  obtain ⟨past, future, atEOF, lineno, item⟩ := lex
  simp only at hf heof
  subst hf heof
  simp [lex_scan_ml_string, lex_next, lex_endofline, lex_backup, ha1, ha2, hb]

/-- C3: a basic multiline string made of simple content (no quote,
backslash or line-ending characters) ending in a run of k consecutive
double quotes followed by a newline: 3, 4 or 5 quotes terminate the
string, the content gaining k - 3 trailing literal quotes; 6 or more make
the scanner report an error. -/
theorem c3_ml_string_trailing_quotes (s : List Char) (k : Nat) (tail : List Char)
    (hs : ∀ c ∈ s, c ≠ '"' ∧ c ≠ '\\' ∧ c ≠ '\x0d' ∧ c ≠ '\n')
    (hk : 3 ≤ k) :
    (k ≤ 5 →
      (lex_scan_next (lex_init ('"' :: '"' :: '"' :: (s ++ List.replicate k '"' ++ '\n' :: tail)))).map
          (fun r => (r.1, r.2.item)) =
        some (.lex_STRING, ⟨.lex_STRING, s ++ List.replicate (k - 3) '"'⟩))
    ∧ (6 ≤ k →
      (lex_scan_next (lex_init ('"' :: '"' :: '"' :: (s ++ List.replicate k '"' ++ '\n' :: tail)))).map
          (fun r => (r.1, r.2.item)) =
        some (.lex_ERROR, ⟨.lex_ERROR, msgTooManyQuotes⟩)) := by
  set rest := s ++ List.replicate k '"' ++ '\n' :: tail with hrest
  have hentry : lex_scan_next (lex_init ('"' :: '"' :: '"' :: rest)) =
      lex_scan_ml_string ⟨['"', '"', '"'], rest, false, 1, ⟨.lex_ERROR, []⟩⟩ := by
    simp [lex_scan_next, lex_init, lex_skip_spaces, lex_next, lex_endofline]
  have hab : ∃ a b r, rest = a :: b :: r ∧ a ≠ '\x0d' ∧ a ≠ '\n' ∧ b ≠ '\n' := by
    match s, hs with
    | [], _ =>
      match k, hk with
      | k + 3, _ =>
        refine ⟨'"', '"', List.replicate (k + 1) '"' ++ '\n' :: tail, ?_, by decide, by decide, by decide⟩
        simp [hrest, List.replicate_succ]
    | [a], hs =>
      obtain ⟨h1, h2, h3, h4⟩ := hs a (by simp)
      match k, hk with
      | k + 3, _ =>
        exact ⟨a, '"', List.replicate (k + 2) '"' ++ '\n' :: tail, by simp [hrest, List.replicate_succ], h3, h4, by decide⟩
    | a :: b :: s, hs =>
      obtain ⟨h1, h2, h3, h4⟩ := hs a (by simp)
      obtain ⟨g1, g2, g3, g4⟩ := hs b (by simp)
      exact ⟨a, b, s ++ List.replicate k '"' ++ '\n' :: tail, by simp [hrest], h3, h4, g4⟩
  obtain ⟨a, b, r, habr, ha1, ha2, hb⟩ := hab
  have hml := lex_scan_ml_string_no_trim ⟨['"', '"', '"'], rest, false, 1, ⟨.lex_ERROR, []⟩⟩
    a b r (by simpa using habr) rfl ha1 ha2 hb
  have hcontent := lex_ml_loop_content s ⟨['"', '"', '"'], rest, false, 1, ⟨.lex_ERROR, []⟩⟩
    [] k tail (rest.length + 2) hs hk (by simpa using hrest) rfl
    (by simp [hrest]; omega)
  rw [hentry, hml]
  constructor
  · intro hk5
    simpa using hcontent.1 hk5
  · intro hk6
    simpa using hcontent.2 hk6

/-- Witness for C3 at s = ab, k = 4: the content gains one literal quote. -/
theorem c3_ml_string_trailing_quotes_witness :
    (lex_scan_next (lex_init ('"' :: '"' :: '"' :: ("ab".toList ++ List.replicate 4 '"' ++ '\n' :: [])))).map
        (fun r => (r.1, r.2.item)) =
      some (.lex_STRING, ⟨.lex_STRING, "ab".toList ++ List.replicate 1 '"'⟩) :=
  (c3_ml_string_trailing_quotes ("ab".toList) 4 [] (by decide) (by decide)).1 (by decide)

/-! ### C9: one expression per non-blank line -/

/-- C9: at the modelled top level (over the real lex.c scanner), an
expression that is followed by an item other than Newline or end of input
makes the parse fail with a syntax error; and two concrete runs pin the
behavior down, one with two key/value pairs on one line (error) and the
same input with a line break (success). -/
theorem c9_toplevel_requires_newline :
    (∀ (lex l1 l2 l3 : LexState) (fuel : Nat) (t t2 : LItemType),
      lex_scan_next lex = some (t, l1) →
      t ≠ .lex_eof →
      t ≠ .lex_NEWLINE →
      spec_expr_after t l1 = some l2 →
      lex_scan_next l2 = some (t2, l3) →
      t2 ≠ .lex_NEWLINE →
      t2 ≠ .lex_eof →
      spec_toplevel (fuel + 1) lex = some false)
  ∧ spec_toplevel 3 (lex_init ("a = 1 b = 2".toList)) = some false
  ∧ spec_toplevel 3 (lex_init ("a = 1\nb = 2".toList)) = some true := by
  refine ⟨?_, by decide, by decide⟩
  intro lex l1 l2 l3 fuel t t2 h1 h2 h3 h4 h5 h6 h7
  simp [spec_toplevel, h1, h2, h3, h4, h5, h6, h7]

def c9s0 : LexState := lex_init ("a = 1 b = 2".toList)

def c9r1 : LItemType × LexState := (lex_scan_next c9s0).getD (.lex_eof, c9s0)

def c9r2 : LexState := (spec_expr_after c9r1.1 c9r1.2).getD c9s0

def c9r3 : LItemType × LexState := (lex_scan_next c9r2).getD (.lex_eof, c9s0)

/-- Witness for C9: applying the failure rule at the concrete input with
two expressions on one line. -/
theorem c9_toplevel_requires_newline_witness :
    spec_toplevel 1 c9s0 = some false :=
  c9_toplevel_requires_newline.1 c9s0 c9r1.2 c9r2 c9r3.2 0 c9r1.1 c9r3.1
    rfl (by decide) (by decide) rfl rfl (by decide) (by decide)

/-! ### C7: both-ways type agreement in key/value binding -/

/-- C7: in load_key_value, a quoted (STRING) value token with a
non-string descriptor fails; an unquoted (WORD) token with a string
descriptor fails; a boolean descriptor rejects any token other than the
exact words true and false, and accepts exactly those two. -/
theorem c7_kv_type_agreement :
    (∀ (fuel : Nat) (key : List Char) (keys : List toml_key_t)
      (array : Option toml_array_t) (offset : Nat)
      (input input1 input2 : List Char) (mem : Mem) (cursor : toml_key_t) (s : List Char),
      toml_lookup keys key = some cursor →
      scan TOKBUFSIZ input = (.EQUAL, input1) →
      scan (if cursor.type = .string_t then cursor.len else TOKBUFSIZ) input1 = (.STRING s, input2) →
      cursor.type ≠ .string_t →
      load_key_value (fuel + 1) key keys array offset input mem = some (-1, input2, mem))
  ∧ (∀ (fuel : Nat) (key : List Char) (keys : List toml_key_t)
      (array : Option toml_array_t) (offset : Nat)
      (input input1 input2 : List Char) (mem : Mem) (cursor : toml_key_t) (s : List Char),
      toml_lookup keys key = some cursor →
      scan TOKBUFSIZ input = (.EQUAL, input1) →
      scan (if cursor.type = .string_t then cursor.len else TOKBUFSIZ) input1 = (.WORD s, input2) →
      cursor.type = .string_t →
      load_key_value (fuel + 1) key keys array offset input mem = some (-1, input2, mem))
  ∧ (∀ (fuel : Nat) (key : List Char) (keys : List toml_key_t)
      (array : Option toml_array_t) (offset : Nat)
      (input input1 input2 : List Char) (mem : Mem) (cursor : toml_key_t) (s : List Char),
      toml_lookup keys key = some cursor →
      scan TOKBUFSIZ input = (.EQUAL, input1) →
      scan (if cursor.type = .string_t then cursor.len else TOKBUFSIZ) input1 = (.WORD s, input2) →
      cursor.type = .boolean_t →
      s ≠ "true".toList →
      s ≠ "false".toList →
      load_key_value (fuel + 1) key keys array offset input mem = some (-1, input2, mem))
  ∧ (∀ (fuel : Nat) (key : List Char) (keys : List toml_key_t)
      (array : Option toml_array_t) (offset : Nat)
      (input input1 input2 : List Char) (mem : Mem) (cursor : toml_key_t) (s : List Char),
      toml_lookup keys key = some cursor →
      scan TOKBUFSIZ input = (.EQUAL, input1) →
      scan (if cursor.type = .string_t then cursor.len else TOKBUFSIZ) input1 = (.WORD s, input2) →
      cursor.type = .boolean_t →
      (s = "true".toList ∨ s = "false".toList) →
      ∃ m2, load_key_value (fuel + 1) key keys array offset input mem = some (0, input2, m2)) := by
  refine ⟨?_, ?_, ?_, ?_⟩
  · intro fuel key keys array offset input input1 input2 mem cursor s hl h1 h2 ht
    rw [if_neg ht] at h2
    simp [load_key_value, hl, h1, h2, load_kv_scalar, ht]
  · intro fuel key keys array offset input input1 input2 mem cursor s hl h1 h2 ht
    rw [if_pos ht] at h2
    simp [load_key_value, hl, h1, h2, load_kv_scalar, ht]
  · intro fuel key keys array offset input input1 input2 mem cursor s hl h1 h2 ht hs1 hs2
    have hns : cursor.type ≠ .string_t := by rw [ht]; decide
    rw [if_neg hns] at h2
    simp only [load_key_value, hl, h1, h2, load_kv_scalar, ht, hns]
    have h1c : ¬s = ('t' :: 'r' :: 'u' :: 'e' :: []) := by simpa using hs1
    have h2c : ¬s = ('f' :: 'a' :: 'l' :: 's' :: 'e' :: []) := by simpa using hs2
    simp [h2, h1c, h2c]
  · intro fuel key keys array offset input input1 input2 mem cursor s hl h1 h2 ht hs
    have hns : cursor.type ≠ .string_t := by rw [ht]; decide
    rw [if_neg hns] at h2
    cases array with
    | none =>
      rcases hs with hs | hs
      · exact ⟨mem.write cursor.addr.readPtr (.boolv true),
          by simp [load_key_value, hl, h1, h2, load_kv_scalar, ht, hns, hs, target_address]⟩
      · exact ⟨mem.write cursor.addr.readPtr (.boolv false),
          by simp [load_key_value, hl, h1, h2, load_kv_scalar, ht, hns, hs, target_address]⟩
    | some arr =>
      rcases hs with hs | hs
      · exact ⟨mem.write (arr.arr.readTablesBase + offset * arr.arr.readTablesStructsize +
            cursor.addr.readOffset) (.boolv true),
          by simp [load_key_value, hl, h1, h2, load_kv_scalar, ht, hns, hs, target_address]⟩
      · exact ⟨mem.write (arr.arr.readTablesBase + offset * arr.arr.readTablesStructsize +
            cursor.addr.readOffset) (.boolv false),
          by simp [load_key_value, hl, h1, h2, load_kv_scalar, ht, hns, hs, target_address]⟩

def c7kInt : toml_key_t := .mk ("count".toList) .integer_t (.ptr 100) 0

def c7kStr : toml_key_t := .mk ("device".toList) .string_t (.ptr 200) 8

def c7kBool : toml_key_t := .mk ("flag".toList) .boolean_t (.ptr 300) 0

/-- Witness for C7: a quoted 42 against an integer descriptor and an
unquoted word against a string descriptor are schema errors; yes is not
a boolean; true binds. -/
theorem c7_kv_type_agreement_witness :
    load_key_value 1 ("count".toList) [c7kInt] none 0 ("= \"42\"".toList) memInit =
      some (-1, [], memInit)
  ∧ load_key_value 1 ("device".toList) [c7kStr] none 0 ("= abc".toList) memInit =
      some (-1, [], memInit)
  ∧ load_key_value 1 ("flag".toList) [c7kBool] none 0 ("= yes".toList) memInit =
      some (-1, [], memInit)
  ∧ ∃ m2, load_key_value 1 ("flag".toList) [c7kBool] none 0 ("= true".toList) memInit =
      some (0, [], m2) := by
  refine ⟨?_, ?_, ?_, ?_⟩
  · exact c7_kv_type_agreement.1 0 _ _ none 0 _ (" \"42\"".toList) [] memInit c7kInt ("42".toList)
      rfl (by decide) (by decide) (by decide)
  · exact c7_kv_type_agreement.2.1 0 _ _ none 0 _ (" abc".toList) [] memInit c7kStr ("abc".toList)
      rfl (by decide) (by decide) (by decide)
  · exact c7_kv_type_agreement.2.2.1 0 _ _ none 0 _ (" yes".toList) [] memInit c7kBool ("yes".toList)
      rfl (by decide) (by decide) (by decide) (by decide) (by decide)
  · exact c7_kv_type_agreement.2.2.2 0 _ _ none 0 _ (" true".toList) [] memInit c7kBool ("true".toList)
      rfl (by decide) (by decide) (by decide) (by decide)

/-! ### C10: no quoted/unquoted agreement check for array elements -/

/-- C10: inside load_array the STRING and WORD cases are merged, so the
element handling depends only on the token text, never on whether it was
quoted: two inputs whose next token is the same text, once quoted and
once bare, drive the loop identically.  Concretely, a quoted token is
accepted and converted for an integer element kind and for a boolean
element kind, and an unquoted token is accepted for a string element
kind. -/
theorem c10_array_elements_ignore_quoting :
    (∀ (fuel : Nat) (arr : toml_array_t) (offset sp : Nat)
      (inputS inputW input1 : List Char) (mem : Mem) (s : List Char),
      scan TOKBUFSIZ inputS = (.STRING s, input1) →
      scan TOKBUFSIZ inputW = (.WORD s, input1) →
      load_array_loop (fuel + 1) arr offset sp inputS mem =
        load_array_loop (fuel + 1) arr offset sp inputW mem)
  ∧ ((load_array 3 (.mk .integer_t (some 900) 4 (.cells 300)) ("\"42\"]".toList) memInit).map
      (fun r => (r.1, r.2.2 900, r.2.2 300)) = some (0, .i32 1, .i32 42))
  ∧ ((load_array 3 (.mk .boolean_t (some 900) 4 (.cells 300)) ("\"true\"]".toList) memInit).map
      (fun r => (r.1, r.2.2 900, r.2.2 300)) = some (0, .i32 1, .boolv true))
  ∧ ((load_array 3 (.mk .string_t (some 950) 4 (.strings 400 450 10)) ("foo]".toList) memInit).map
      (fun r => (r.1, r.2.2 950, r.2.2 400, r.2.2 450, r.2.2 451, r.2.2 452, r.2.2 453)) =
        some (0, .i32 1, .ptrv 450, .byte 'f', .byte 'o', .byte 'o', .byte (Char.ofNat 0))) := by
  refine ⟨?_, by decide, by decide, by rfl⟩
  intro fuel arr offset sp inputS inputW input1 mem s h1 h2
  simp [load_array_loop, h1, h2]

/-- Witness for C10: the same token text 42, quoted in one input and bare
in the other, with the same remaining input, drives the array loop to the
same outcome. -/
theorem c10_array_elements_ignore_quoting_witness :
    load_array_loop 1 (.mk .integer_t (some 900) 4 (.cells 300)) 0 0
        ("\"42\", 7]".toList) memInit =
      load_array_loop 1 (.mk .integer_t (some 900) 4 (.cells 300)) 0 0
        ("42, 7]".toList) memInit :=
  c10_array_elements_ignore_quoting.1 0 (.mk .integer_t (some 900) 4 (.cells 300)) 0 0
    ("\"42\", 7]".toList) ("42, 7]".toList) (", 7]".toList) memInit ("42".toList)
    (by decide) (by decide)

/-! ### C4: string binding, capacity and the overlong case -/

/-- The quoted-token loop with a value that fits the buffer: every
character is stored and the closing quote ends the token. -/
theorem scan_word_string_ok (text : List Char) :
    ∀ (acc : List Char) (size : Nat) (rest : List Char),
    (∀ c ∈ text, c ≠ '"' ∧ c ≠ '\n') →
    acc.length + text.length ≤ size - 1 →
    scan_word_string size acc (text ++ '"' :: rest) = (.STRING (acc ++ text), rest) := by
  induction text with
  | nil =>
    intro acc size rest _ _
    simp [scan_word_string]
  | cons c text ih =>
    intro acc size rest hs hlen
    obtain ⟨hq, hn⟩ := hs c (by simp)
    have hbound : ¬acc.length ≥ size - 1 := by
      simp only [List.length_cons] at hlen
      omega
    simp only [List.cons_append, scan_word_string, hn, hq, if_neg hbound, if_false,
      List.append_eq]
    rw [ih (acc ++ [c]) size rest (fun d hd => hs d (by simp [hd]))
      (by simp only [List.length_append, List.length_cons] at hlen ⊢; simp; omega)]
    simp

/-- The quoted-token loop with a value that does not fit: the size check
fires and scan_word returns the error. -/
theorem scan_word_string_overflow (text : List Char) :
    ∀ (acc : List Char) (size : Nat) (rest : List Char),
    (∀ c ∈ text, c ≠ '"' ∧ c ≠ '\n') →
    acc.length ≤ size - 1 →
    size - 1 < acc.length + text.length →
    (scan_word_string size acc (text ++ '"' :: rest)).1 = .ERR := by
  induction text with
  | nil =>
    intro acc size rest _ h1 h2
    simp at h2
    omega
  | cons c text ih =>
    intro acc size rest hs h1 h2
    obtain ⟨hq, hn⟩ := hs c (by simp)
    by_cases hb : acc.length ≥ size - 1
    · simp [scan_word_string, hn, hq, hb]
    · simp only [List.cons_append, scan_word_string, hn, hq, if_neg hb, if_false,
        List.append_eq]
      rw [ih (acc ++ [c]) size rest (fun d hd => hs d (by simp [hd]))
        (by simp; omega)
        (by simp only [List.length_append, List.length_cons] at h2 ⊢; simp; omega)]

/-- C4 (amended): binding a quoted value to a string descriptor of
declared capacity N copies the whole value (at most N - 1 bytes), always
writes the terminating null at index N - 1, pads the rest of the buffer
with nulls, and never writes outside the N bytes of the buffer; a value
longer than N - 1 bytes makes the parse fail (the token is scanned into a
buffer limited to the declared capacity), with nothing written. -/
theorem c4_string_capacity :
    ∀ (fuel : Nat) (key : List Char) (keys : List toml_key_t)
      (input input1 rest : List Char) (mem : Mem) (cursor : toml_key_t)
      (text : List Char) (N : Nat),
    toml_lookup keys key = some cursor →
    cursor.type = .string_t →
    cursor.len = N →
    1 ≤ N →
    (∀ c ∈ text, c ≠ '"' ∧ c ≠ '\n') →
    scan TOKBUFSIZ input = (.EQUAL, input1) →
    input1 = '"' :: (text ++ '"' :: rest) →
    (text.length ≤ N - 1 →
      ∃ mem2, load_key_value (fuel + 1) key keys none 0 input mem = some (0, rest, mem2)
        ∧ mem2 (cursor.addr.readPtr + (N - 1)) = .byte (Char.ofNat 0)
        ∧ (∀ i, i < N - 1 → mem2 (cursor.addr.readPtr + i) = .byte (text.getD i (Char.ofNat 0)))
        ∧ (∀ a, a < cursor.addr.readPtr ∨ cursor.addr.readPtr + N ≤ a → mem2 a = mem a))
    ∧ (N - 1 < text.length →
      (load_key_value (fuel + 1) key keys none 0 input mem).map (fun r => (r.1, r.2.2)) =
        some (-1, mem)) := by
  intro fuel key keys input input1 rest mem cursor text N hl ht hlen hN hs h1 h2
  have hscan : ∀ l : List Char, scan N ('"' :: l) = scan_word_string N [] l := by
    intro l
    simp [scan, scanGo, scan_word, isspaceC]
  constructor
  · intro hfit
    have hok := scan_word_string_ok text [] N rest hs (by simpa using hfit)
    refine ⟨(strncpyMem mem cursor.addr.readPtr text (N - 1)).write
        (cursor.addr.readPtr + (N - 1)) (.byte (Char.ofNat 0)), ?_, ?_, ?_, ?_⟩
    · have hv : scan N ('"' :: (text ++ '"' :: rest)) = (.STRING text, rest) := by
        rw [hscan, hok]
        simp
      simp only [load_key_value, hl, h1, if_pos ht, hlen, h2,
        load_kv_scalar, ht, target_address]
      simp [hv]
    · simp [Mem.write]
    · intro i hi
      simp only [Mem.write, strncpyMem]
      rw [if_neg (by omega), if_pos (by omega)]
      simp
    · intro a ha
      simp only [Mem.write, strncpyMem]
      rw [if_neg (by omega), if_neg (by omega)]
  · intro hover
    have herr := scan_word_string_overflow text [] N rest hs (by simp) (by simpa using hover)
    rcases hsw : scan_word_string N [] (text ++ '"' :: rest) with ⟨t1, r1⟩
    rw [hsw] at herr
    simp only at herr
    subst herr
    simp only [load_key_value, hl, h1, if_pos ht, hlen, h2, hscan, hsw]
    simp

def c4k : toml_key_t := .mk ("device".toList) .string_t (.ptr 200) 4

/-- Counterexample for C4 as stated: with capacity 4 the five-byte value
abcde is not silently truncated to abc; the parse fails with an error and
nothing is written to the destination. -/
theorem c4_no_silent_truncation_counterexample :
    (load_key_value 1 ("device".toList) [c4k] none 0 ("= \"abcde\"".toList) memInit).map
        (fun r => (r.1, r.2.2 200, r.2.2 201, r.2.2 202, r.2.2 203)) =
      some (-1, .undef, .undef, .undef, .undef) := by
  decide

/-- Witness for the amended C4 at capacity 4: the three-byte value abc
binds with a trailing null and no write outside the buffer. -/
theorem c4_string_capacity_witness :
    ∃ mem2, load_key_value 1 ("device".toList) [c4k] none 0 ("=\"abc\"".toList) memInit =
        some (0, [], mem2)
      ∧ mem2 (200 + 3) = .byte (Char.ofNat 0)
      ∧ (∀ i, i < 3 → mem2 (200 + i) = .byte ("abc".toList.getD i (Char.ofNat 0)))
      ∧ (∀ a, a < 200 ∨ 204 ≤ a → mem2 a = memInit a) :=
  (c4_string_capacity 0 ("device".toList) [c4k] ("=\"abc\"".toList) ("\"abc\"".toList)
    [] memInit c4k ("abc".toList) 4 rfl (by decide) (by decide) (by decide)
    (by decide) (by decide) (by decide)).1 (by decide)

/-! ### C2 lemmas: array-of-tables headers -/

/-- A [[key]] header naming the same key as the previous array-of-tables
header advances the element index by one and publishes index + 1. -/
theorem toml_load_ldbl_same_key (keys : List toml_key_t) (st : TLState)
    (input input1 input2 : List Char) (mem : Mem) (cursor : toml_key_t)
    (name : List Char) (cnt : Nat)
    (hscan1 : scan TOKBUFSIZ input = (.WORD name, input1))
    (hlook : toml_lookup keys name = some cursor)
    (hta : cursor.type = .array_t)
    (htt : cursor.addr.readArray.type = .table_t)
    (hscan2 : scan TOKBUFSIZ input1 = (.RDOUBLEBRACKET, input2))
    (hcnt : cursor.addr.readArray.count = some cnt)
    (hsame : st.curkey = some cursor.key)
    (hroom : st.offset + 1 < cursor.addr.readArray.maxlen) :
    toml_load_ldbl keys st input mem =
      .cont ⟨cursor.addr.readArray.arr.readTablesSubtype, st.offset + 1,
          some cursor.addr.readArray, st.curkey⟩ input2
        (mem.write cnt (.i32 (wrap32 (Int.ofNat (st.offset + 1 + 1))))) := by
  have hne : ¬(st.curkey = none ∨ st.curkey ≠ some cursor.key) := by
    simp [hsame]
  simp [toml_load_ldbl, hscan1, hlook, hta, htt, hscan2, hcnt, hne, hsame,
    Nat.not_le.mpr hroom]

/-- A [[key]] header naming a different key (or the first such header)
resets the element index to zero, records the key, and publishes 1. -/
theorem toml_load_ldbl_new_key (keys : List toml_key_t) (st : TLState)
    (input input1 input2 : List Char) (mem : Mem) (cursor : toml_key_t)
    (name : List Char) (cnt : Nat)
    (hscan1 : scan TOKBUFSIZ input = (.WORD name, input1))
    (hlook : toml_lookup keys name = some cursor)
    (hta : cursor.type = .array_t)
    (htt : cursor.addr.readArray.type = .table_t)
    (hscan2 : scan TOKBUFSIZ input1 = (.RDOUBLEBRACKET, input2))
    (hcnt : cursor.addr.readArray.count = some cnt)
    (hdiff : st.curkey = none ∨ st.curkey ≠ some cursor.key)
    (hroom : 0 < cursor.addr.readArray.maxlen) :
    toml_load_ldbl keys st input mem =
      .cont ⟨cursor.addr.readArray.arr.readTablesSubtype, 0,
          some cursor.addr.readArray, some cursor.key⟩ input2
        (mem.write cnt (.i32 (wrap32 (Int.ofNat 1)))) := by
  simp [toml_load_ldbl, hscan1, hlook, hta, htt, hscan2, hcnt, hdiff,
    Nat.not_le.mpr hroom]

/-- A [[key]] header whose advanced index would reach the declared
capacity aborts the parse. -/
theorem toml_load_ldbl_capacity (keys : List toml_key_t) (st : TLState)
    (input input1 input2 : List Char) (mem : Mem) (cursor : toml_key_t)
    (name : List Char)
    (hscan1 : scan TOKBUFSIZ input = (.WORD name, input1))
    (hlook : toml_lookup keys name = some cursor)
    (hta : cursor.type = .array_t)
    (htt : cursor.addr.readArray.type = .table_t)
    (hscan2 : scan TOKBUFSIZ input1 = (.RDOUBLEBRACKET, input2))
    (hsame : st.curkey = some cursor.key)
    (hcap : cursor.addr.readArray.maxlen ≤ st.offset + 1) :
    toml_load_ldbl keys st input mem = .fail input2 mem := by
  have hne : ¬(st.curkey = none ∨ st.curkey ≠ some cursor.key) := by
    simp [hsame]
  simp [toml_load_ldbl, hscan1, hlook, hta, htt, hscan2, hne, hsame, hcap]

/-- The sub-template of the concrete array-of-tables layout used for the
N-header run: one integer field x at offset 0. -/
def c2sub : List toml_key_t := [.mk ("x".toList) .integer_t (.offset 0) 0]

/-- items: an array of tables with capacity cap, count cell at address
500, element base 1000, stride 8. -/
def c2arr (cap : Nat) : toml_array_t := .mk .table_t (some 500) cap (.tables c2sub 1000 8)

def c2keys (cap : Nat) : List toml_key_t :=
  [.mk ("items".toList) .array_t (.array (c2arr cap)) 0]

/-- One header block: an [[items]] header followed by one field line. -/
def c2block : List Char := " [[items]] x = 1".toList

/-- n consecutive header blocks. -/
def c2rep : Nat → List Char
  | 0 => []
  | n + 1 => c2block ++ c2rep n

/-- One same-key [[items]] header advances the cursor and publishes
index + 1. -/
theorem c2_step_header (cap j : Nat) (rest : List Char) (mem : Mem) (fuel : Nat)
    (hroom : j + 1 < cap) :
    toml_load_loop (fuel + 1) (c2keys cap)
        ⟨c2sub, j, some (c2arr cap), some ("items".toList)⟩ (c2block ++ rest) mem =
      toml_load_loop fuel (c2keys cap)
        ⟨c2sub, j + 1, some (c2arr cap), some ("items".toList)⟩ (" x = 1".toList ++ rest)
        (mem.write 500 (.i32 (wrap32 (Int.ofNat (j + 2))))) := by
  have hstep := toml_load_ldbl_same_key (c2keys cap)
    ⟨c2sub, j, some (c2arr cap), some ("items".toList)⟩
    ("items]] x = 1".toList ++ rest) ("]] x = 1".toList ++ rest) (" x = 1".toList ++ rest)
    mem (.mk ("items".toList) .array_t (.array (c2arr cap)) 0) ("items".toList) 500
    (by simp [scan, scanGo, scan_word, scan_word_bare, wordChar, isspaceC, TOKBUFSIZ])
    (by rfl) rfl rfl
    (by simp [scan, scanGo, isspaceC])
    rfl rfl hroom
  simp only [toml_load_loop]
  rw [show scan TOKBUFSIZ (c2block ++ rest) =
    (.LDOUBLEBRACKET, "items]] x = 1".toList ++ rest) from by
      simp [c2block, scan, scanGo, isspaceC]]
  rw [hstep]
  rfl

/-- The first [[items]] header (no current key yet) resets to element 0
and publishes 1. -/
theorem c2_step_header0 (cap : Nat) (rest : List Char) (mem : Mem) (fuel : Nat)
    (hroom : 0 < cap) :
    toml_load_loop (fuel + 1) (c2keys cap)
        ⟨c2keys cap, 0, none, none⟩ (c2block ++ rest) mem =
      toml_load_loop fuel (c2keys cap)
        ⟨c2sub, 0, some (c2arr cap), some ("items".toList)⟩ (" x = 1".toList ++ rest)
        (mem.write 500 (.i32 (wrap32 (Int.ofNat 1)))) := by
  have hstep := toml_load_ldbl_new_key (c2keys cap)
    ⟨c2keys cap, 0, none, none⟩
    ("items]] x = 1".toList ++ rest) ("]] x = 1".toList ++ rest) (" x = 1".toList ++ rest)
    mem (.mk ("items".toList) .array_t (.array (c2arr cap)) 0) ("items".toList) 500
    (by simp [scan, scanGo, scan_word, scan_word_bare, wordChar, isspaceC, TOKBUFSIZ])
    (by rfl) rfl rfl
    (by simp [scan, scanGo, isspaceC])
    rfl (Or.inl rfl) hroom
  simp only [toml_load_loop]
  rw [show scan TOKBUFSIZ (c2block ++ rest) =
    (.LDOUBLEBRACKET, "items]] x = 1".toList ++ rest) from by
      simp [c2block, scan, scanGo, isspaceC]]
  rw [hstep]
  rfl

/-- One x = 1 field line writes 1 into field x of element j. -/
theorem c2_step_kv (cap j : Nat) (rest : List Char) (mem : Mem) (fuel : Nat)
    (hrest : rest = [] ∨ ∃ r, rest = ' ' :: r) :
    toml_load_loop (fuel + 2) (c2keys cap)
        ⟨c2sub, j, some (c2arr cap), some ("items".toList)⟩ (" x = 1".toList ++ rest) mem =
      toml_load_loop (fuel + 1) (c2keys cap)
        ⟨c2sub, j, some (c2arr cap), some ("items".toList)⟩ rest
        (mem.write (1000 + j * 8) (.i32 1)) := by
  have hv : scan TOKBUFSIZ (" 1".toList ++ rest) = (.WORD ['1'], rest) := by
    rcases hrest with h | ⟨r, h⟩ <;> subst h <;>
      simp [scan, scanGo, scan_word, scan_word_bare, wordChar, isspaceC, TOKBUFSIZ]
  have hkv : load_key_value (fuel + 1) ['x'] c2sub (some (c2arr cap)) j
      (" = 1".toList ++ rest) mem = some (0, rest, mem.write (1000 + j * 8) (.i32 1)) := by
    simp only [load_key_value]
    rw [show toml_lookup c2sub ['x'] =
      some (.mk ("x".toList) .integer_t (.offset 0) 0) from rfl]
    rw [show scan TOKBUFSIZ (" = 1".toList ++ rest) = (.EQUAL, " 1".toList ++ rest) from by
      simp [scan, scanGo, isspaceC]]
    simp only []
    rw [show (if (toml_key_t.mk ("x".toList) .integer_t (.offset 0) 0).type = .string_t
        then (toml_key_t.mk ("x".toList) .integer_t (.offset 0) 0).len else TOKBUFSIZ) =
      TOKBUFSIZ from rfl]
    rw [hv]
    rfl
  simp only [toml_load_loop]
  rw [show scan TOKBUFSIZ (" x = 1".toList ++ rest) =
    (.WORD ['x'], " = 1".toList ++ rest) from by
      simp [scan, scanGo, scan_word, scan_word_bare, wordChar, isspaceC, TOKBUFSIZ]]
  have hkv2 := hkv
  simp only [show (" = 1".toList : List Char) = [' ', '=', ' ', '1'] from rfl,
    List.cons_append, List.nil_append] at hkv2
  simp [hkv2]

theorem c2rep_shape (n : Nat) : c2rep n = [] ∨ ∃ r, c2rep n = ' ' :: r := by
  cases n with
  | zero => exact Or.inl rfl
  | succ n => exact Or.inr ⟨_, rfl⟩

/-- n further same-key header blocks starting at element j: the parse
succeeds, the count cell ends at j + n + 1, fields of elements j+1..j+n
are written, and nothing else changes. -/
theorem c2_run (n : Nat) : ∀ (cap j : Nat) (mem : Mem),
    j + n < cap →
    ∃ mem2,
      toml_load_loop (2 * n + 1) (c2keys cap)
          ⟨c2sub, j, some (c2arr cap), some ("items".toList)⟩ (c2rep n) mem = some (0, mem2)
      ∧ (1 ≤ n → mem2 500 = .i32 (wrap32 (Int.ofNat (j + n + 1))))
      ∧ (∀ i, j < i → i ≤ j + n → mem2 (1000 + i * 8) = .i32 1)
      ∧ (∀ a, (a ≠ 500 ∨ n = 0) → (∀ i, j < i → i ≤ j + n → a ≠ 1000 + i * 8) →
          mem2 a = mem a) := by
  induction n with
  | zero =>
    intro cap j mem _
    refine ⟨mem, rfl, by omega, ?_, fun a _ _ => rfl⟩
    intro i h1 h2
    omega
  | succ n ih =>
    intro cap j mem hroom
    have hh := c2_step_header cap j (c2rep n) mem (2 * n + 2) (by omega)
    have hk := c2_step_kv cap (j + 1) (c2rep n)
      (mem.write 500 (.i32 (wrap32 (Int.ofNat (j + 2))))) (2 * n) (c2rep_shape n)
    obtain ⟨mem2, hloop, hcount, hcells, hframe⟩ :=
      ih cap (j + 1)
        ((mem.write 500 (.i32 (wrap32 (Int.ofNat (j + 2))))).write (1000 + (j + 1) * 8) (.i32 1))
        (by omega)
    refine ⟨mem2, ?_, ?_, ?_, ?_⟩
    · show toml_load_loop (2 * (n + 1) + 1) (c2keys cap)
        ⟨c2sub, j, some (c2arr cap), some ("items".toList)⟩ (c2block ++ c2rep n) mem =
        some (0, mem2)
      have e1 : 2 * (n + 1) + 1 = (2 * n + 2) + 1 := by ring
      rw [e1, hh, hk, hloop]
    · intro _
      rcases Nat.eq_zero_or_pos n with hn | hn
      · subst hn
        have hf := hframe 500 (Or.inr rfl) (by intro i h1 h2; omega)
        rw [hf]
        simp [Mem.write, show ¬(500 : Nat) = 1000 + (j + 1) * 8 from by omega,
          show j + 0 + 1 + 1 = j + 2 from by omega]
      · rw [show j + (n + 1) + 1 = j + 1 + n + 1 from by omega]
        exact hcount hn
    · intro i h1 h2
      rcases Nat.lt_or_ge (j + 1) i with hgt | hle
      · exact hcells i hgt (by omega)
      · have hi : i = j + 1 := by omega
        subst hi
        have := hframe (1000 + (j + 1) * 8) (Or.inl (by omega)) (by intro i h1 h2; omega)
        rw [this]
        simp [Mem.write]
    · intro a ha hno
      have ha5 : a ≠ 500 := by
        rcases ha with h | h
        · exact h
        · omega
      have := hframe a (Or.inl ha5) (by intro i h1 h2; exact hno i (by omega) (by omega))
      rw [this]
      simp [Mem.write, ha5, show a ≠ 1000 + (j + 1) * 8 from hno (j + 1) (by omega) (by omega)]

/-- C2: the array-of-tables header discipline of toml_load.  (1) A header
naming the same key as the previous array-of-tables header advances the
element index by one and publishes index + 1 through the count pointer;
(2) a header naming a different key (or the first header) resets the
index to zero, records the new key as current, and publishes 1; (3) a
header whose advanced index would reach the declared capacity makes the
parse fail; (4) n consecutive [[items]] blocks (capacity cap, n ≤ cap)
populate elements 0 .. n-1 in order and leave the length output equal to
n. -/
theorem c2_array_of_tables_headers :
    (∀ (keys : List toml_key_t) (st : TLState) (input input1 input2 : List Char)
      (mem : Mem) (cursor : toml_key_t) (name : List Char) (cnt : Nat),
      scan TOKBUFSIZ input = (.WORD name, input1) →
      toml_lookup keys name = some cursor →
      cursor.type = .array_t →
      cursor.addr.readArray.type = .table_t →
      scan TOKBUFSIZ input1 = (.RDOUBLEBRACKET, input2) →
      cursor.addr.readArray.count = some cnt →
      st.curkey = some cursor.key →
      st.offset + 1 < cursor.addr.readArray.maxlen →
      toml_load_ldbl keys st input mem =
        .cont ⟨cursor.addr.readArray.arr.readTablesSubtype, st.offset + 1,
            some cursor.addr.readArray, st.curkey⟩ input2
          (mem.write cnt (.i32 (wrap32 (Int.ofNat (st.offset + 1 + 1))))))
  ∧ (∀ (keys : List toml_key_t) (st : TLState) (input input1 input2 : List Char)
      (mem : Mem) (cursor : toml_key_t) (name : List Char) (cnt : Nat),
      scan TOKBUFSIZ input = (.WORD name, input1) →
      toml_lookup keys name = some cursor →
      cursor.type = .array_t →
      cursor.addr.readArray.type = .table_t →
      scan TOKBUFSIZ input1 = (.RDOUBLEBRACKET, input2) →
      cursor.addr.readArray.count = some cnt →
      (st.curkey = none ∨ st.curkey ≠ some cursor.key) →
      0 < cursor.addr.readArray.maxlen →
      toml_load_ldbl keys st input mem =
        .cont ⟨cursor.addr.readArray.arr.readTablesSubtype, 0,
            some cursor.addr.readArray, some cursor.key⟩ input2
          (mem.write cnt (.i32 (wrap32 (Int.ofNat 1)))))
  ∧ (∀ (keys : List toml_key_t) (st : TLState) (input input1 input2 : List Char)
      (mem : Mem) (cursor : toml_key_t) (name : List Char),
      scan TOKBUFSIZ input = (.WORD name, input1) →
      toml_lookup keys name = some cursor →
      cursor.type = .array_t →
      cursor.addr.readArray.type = .table_t →
      scan TOKBUFSIZ input1 = (.RDOUBLEBRACKET, input2) →
      st.curkey = some cursor.key →
      cursor.addr.readArray.maxlen ≤ st.offset + 1 →
      toml_load_ldbl keys st input mem = .fail input2 mem)
  ∧ (∀ (n cap : Nat), 1 ≤ n → n ≤ cap →
      ∃ mem2, toml_load (2 * n + 1) (c2keys cap) (c2rep n) memInit = some (0, mem2)
        ∧ mem2 500 = .i32 (wrap32 (Int.ofNat n))
        ∧ (∀ e, e < n → mem2 (1000 + e * 8) = .i32 1)) := by
  refine ⟨toml_load_ldbl_same_key, toml_load_ldbl_new_key, toml_load_ldbl_capacity, ?_⟩
  intro n cap hn hcap
  match n, hn with
  | m + 1, _ =>
    have hh := c2_step_header0 cap (c2rep m) memInit (2 * m + 2) (by omega)
    have hk := c2_step_kv cap 0 (c2rep m)
      (memInit.write 500 (.i32 (wrap32 (Int.ofNat 1)))) (2 * m) (c2rep_shape m)
    obtain ⟨mem2, hloop, hcount, hcells, hframe⟩ :=
      c2_run m cap 0
        ((memInit.write 500 (.i32 (wrap32 (Int.ofNat 1)))).write (1000 + 0 * 8) (.i32 1))
        (by omega)
    refine ⟨mem2, ?_, ?_, ?_⟩
    · show toml_load_loop (2 * (m + 1) + 1) (c2keys cap)
        ⟨c2keys cap, 0, none, none⟩ (c2block ++ c2rep m) memInit = some (0, mem2)
      have e1 : 2 * (m + 1) + 1 = (2 * m + 2) + 1 := by ring
      rw [e1, hh, hk, hloop]
    · rcases Nat.eq_zero_or_pos m with hm | hm
      · subst hm
        have hf := hframe 500 (Or.inr rfl) (by intro i h1 h2; omega)
        rw [hf]
        simp [Mem.write, show ¬(500 : Nat) = 1000 + 0 * 8 from by omega]
      · rw [show (0 : Nat) + m + 1 = m + 1 from by omega] at hcount
        exact hcount hm
    · intro e he
      rcases Nat.eq_zero_or_pos e with he0 | hepos
      · subst he0
        have hf := hframe (1000 + 0 * 8) (Or.inl (by omega)) (by intro i h1 h2; omega)
        rw [hf]
        simp [Mem.write]
      · exact hcells e hepos (by omega)

/-- Witness for C2: two consecutive [[items]] blocks with capacity 3
populate elements 0 and 1 and leave the length output 2. -/
theorem c2_array_of_tables_headers_witness :
    ∃ mem2, toml_load 5 (c2keys 3) (c2rep 2) memInit = some (0, mem2)
      ∧ mem2 500 = .i32 (wrap32 (Int.ofNat 2))
      ∧ (∀ e, e < 2 → mem2 (1000 + e * 8) = .i32 1) :=
  c2_array_of_tables_headers.2.2.2 2 3 (by decide) (by decide)

/-! ### C8 lemmas: load_array invariants -/

/-- Count bounds of the array loop: the final offset never shrinks, and on
a clean exit it stays within the declared capacity. -/
theorem load_array_count_bound (fuel : Nat) :
    (∀ (arr : toml_array_t) (off sp : Nat) (input : List Char) (mem : Mem)
      (st : Int) (rest : List Char) (mem2 : Mem) (c : Nat),
      load_array_loop fuel arr off sp input mem = some (st, rest, mem2, c) →
      off ≤ c ∧ (st = 0 → off ≤ arr.maxlen → c ≤ arr.maxlen))
  ∧ (∀ (arr : toml_array_t) (off sp : Nat) (input : List Char) (mem : Mem)
      (st : Int) (rest : List Char) (mem2 : Mem) (c : Nat),
      load_array_sep fuel arr off sp input mem = some (st, rest, mem2, c) →
      off + 1 ≤ c ∧ (st = 0 → off + 1 ≤ arr.maxlen → c ≤ arr.maxlen)) := by
  induction fuel with
  | zero =>
    constructor <;> intro arr off sp input mem st rest mem2 c h <;>
      simp [load_array_loop, load_array_sep] at h
  | succ fuel ih =>
    constructor
    · intro arr off sp input mem st rest mem2 c h
      rcases h1 : scan TOKBUFSIZ input with ⟨tok, input1⟩
      simp only [load_array_loop, h1] at h
      split at h
      · simp at h; omega
      · simp at h; omega
      · simp at h
        obtain ⟨h2, h3, h4, h5⟩ := h
        exact ⟨by omega, by intro h0; omega⟩
      · split at h
        · simp at h
          obtain ⟨h2, h3, h4, h5⟩ := h
          exact ⟨by omega, by intro h0; omega⟩
        · rename_i hcap
          split at h
          · rename_i s
            split at h
            · simp at h
              obtain ⟨h2, h3, h4, h5⟩ := h
              exact ⟨by omega, by intro h0; omega⟩
            · have := ih.2 arr off _ input1 _ st rest mem2 c h
              exact ⟨by omega, by intro h0 hm; exact this.2 h0 (by omega)⟩
          · rename_i s
            split at h
            · simp at h
              obtain ⟨h2, h3, h4, h5⟩ := h
              exact ⟨by omega, by intro h0; omega⟩
            · have := ih.2 arr off _ input1 _ st rest mem2 c h
              exact ⟨by omega, by intro h0 hm; exact this.2 h0 (by omega)⟩
          · split at h
            · simp at h
              obtain ⟨h2, h3, h4, h5⟩ := h
              exact ⟨by omega, by intro h0; omega⟩
            · split at h
              · exact absurd h (by simp)
              · split at h
                · simp at h
                  obtain ⟨h2, h3, h4, h5⟩ := h
                  exact ⟨by omega, by intro h0; omega⟩
                · have := ih.2 arr off sp _ _ st rest mem2 c h
                  exact ⟨by omega, by intro h0 hm; exact this.2 h0 (by omega)⟩
          · simp at h
            obtain ⟨h2, h3, h4, h5⟩ := h
            exact ⟨by omega, by intro h0; omega⟩
    · intro arr off sp input mem st rest mem2 c h
      rcases h1 : scan TOKBUFSIZ input with ⟨tok, input1⟩
      simp only [load_array_sep, h1] at h
      split at h
      · simp at h
        obtain ⟨h2, h3, h4, h5⟩ := h
        exact ⟨by omega, by intro h0; omega⟩
      · have := ih.1 arr (off + 1) sp input1 mem st rest mem2 c h
        exact ⟨this.1, this.2⟩
      · simp at h
        obtain ⟨h2, h3, h4, h5⟩ := h
        exact ⟨by omega, by intro h0; omega⟩

/-- Array element kinds stored as single typed cells at arr.u.cells + offset
(all scalar kinds except strings, which use the ptrs/store pair). -/
def cellKind : TomlType → Bool
  | .integer_t | .uinteger_t | .short_t | .ushort_t | .long_t | .ulong_t
  | .real_t | .boolean_t => true
  | _ => false

/-- The memory value written for a cell of the given element kind carries
the matching type tag. -/
def cellTagged : TomlType → MemVal → Bool
  | .integer_t, .i32 _ => true
  | .uinteger_t, .u32 _ => true
  | .short_t, .i16 _ => true
  | .ushort_t, .u16 _ => true
  | .long_t, .i64 _ => true
  | .ulong_t, .u64 _ => true
  | .real_t, .realv _ => true
  | .boolean_t, .boolv _ => true
  | _, _ => false

/-- Effect of the STRING/WORD element switch for cell kinds: on success it
writes exactly the cell of the current offset, with a value tagged for the
element kind, and leaves the store pointer alone; on failure it leaves the
memory untouched. -/
theorem cell_elem_effect (arr : toml_array_t) (off sp : Nat) (s : List Char) (mem : Mem)
    (hk : cellKind arr.type = true) :
    (∀ m2 sp2, load_array_word_elem arr off sp s mem = .ok m2 sp2 →
      sp2 = sp ∧ cellTagged arr.type (m2 (arr.arr.readCells + off)) = true ∧
      ∀ a, a ≠ arr.arr.readCells + off → m2 a = mem a)
  ∧ (∀ m2, load_array_word_elem arr off sp s mem = .fail m2 → m2 = mem) := by
  cases harr : arr.type with
  | string_t => rw [harr] at hk; simp [cellKind] at hk
  | array_t => rw [harr] at hk; simp [cellKind] at hk
  | table_t => rw [harr] at hk; simp [cellKind] at hk
  | integer_t =>
    constructor
    · intro m2 sp2 h
      simp only [load_array_word_elem, harr] at h
      split at h
      · exact absurd h (by simp)
      · split at h
        · exact absurd h (by simp)
        · simp at h
          obtain ⟨h2, h3⟩ := h
          subst h2 h3
          exact ⟨rfl, by simp [Mem.write, cellTagged, harr], fun a ha => by simp [Mem.write, ha]⟩
    · intro m2 h
      simp only [load_array_word_elem, harr] at h
      split at h
      · simp at h; simp [h]
      · split at h
        · simp at h; simp [h]
        · exact absurd h (by simp)
  | uinteger_t =>
    constructor
    · intro m2 sp2 h
      simp only [load_array_word_elem, harr] at h
      split at h
      · exact absurd h (by simp)
      · split at h
        · exact absurd h (by simp)
        · simp at h
          obtain ⟨h2, h3⟩ := h
          subst h2 h3
          exact ⟨rfl, by simp [Mem.write, cellTagged, harr], fun a ha => by simp [Mem.write, ha]⟩
    · intro m2 h
      simp only [load_array_word_elem, harr] at h
      split at h
      · simp at h; simp [h]
      · split at h
        · simp at h; simp [h]
        · exact absurd h (by simp)
  | short_t =>
    constructor
    · intro m2 sp2 h
      simp only [load_array_word_elem, harr] at h
      split at h
      · exact absurd h (by simp)
      · split at h
        · exact absurd h (by simp)
        · simp at h
          obtain ⟨h2, h3⟩ := h
          subst h2 h3
          exact ⟨rfl, by simp [Mem.write, cellTagged, harr], fun a ha => by simp [Mem.write, ha]⟩
    · intro m2 h
      simp only [load_array_word_elem, harr] at h
      split at h
      · simp at h; simp [h]
      · split at h
        · simp at h; simp [h]
        · exact absurd h (by simp)
  | ushort_t =>
    constructor
    · intro m2 sp2 h
      simp only [load_array_word_elem, harr] at h
      split at h
      · exact absurd h (by simp)
      · split at h
        · exact absurd h (by simp)
        · simp at h
          obtain ⟨h2, h3⟩ := h
          subst h2 h3
          exact ⟨rfl, by simp [Mem.write, cellTagged, harr], fun a ha => by simp [Mem.write, ha]⟩
    · intro m2 h
      simp only [load_array_word_elem, harr] at h
      split at h
      · simp at h; simp [h]
      · split at h
        · simp at h; simp [h]
        · exact absurd h (by simp)
  | long_t =>
    constructor
    · intro m2 sp2 h
      simp only [load_array_word_elem, harr] at h
      split at h
      · exact absurd h (by simp)
      · split at h
        · exact absurd h (by simp)
        · simp at h
          obtain ⟨h2, h3⟩ := h
          subst h2 h3
          exact ⟨rfl, by simp [Mem.write, cellTagged, harr], fun a ha => by simp [Mem.write, ha]⟩
    · intro m2 h
      simp only [load_array_word_elem, harr] at h
      split at h
      · simp at h; simp [h]
      · split at h
        · simp at h; simp [h]
        · exact absurd h (by simp)
  | ulong_t =>
    constructor
    · intro m2 sp2 h
      simp only [load_array_word_elem, harr] at h
      split at h
      · exact absurd h (by simp)
      · split at h
        · exact absurd h (by simp)
        · simp at h
          obtain ⟨h2, h3⟩ := h
          subst h2 h3
          exact ⟨rfl, by simp [Mem.write, cellTagged, harr], fun a ha => by simp [Mem.write, ha]⟩
    · intro m2 h
      simp only [load_array_word_elem, harr] at h
      split at h
      · simp at h; simp [h]
      · split at h
        · simp at h; simp [h]
        · exact absurd h (by simp)
  | real_t =>
    constructor
    · intro m2 sp2 h
      simp only [load_array_word_elem, harr] at h
      split at h
      · exact absurd h (by simp)
      · split at h
        · exact absurd h (by simp)
        · simp at h
          obtain ⟨h2, h3⟩ := h
          subst h2 h3
          exact ⟨rfl, by simp [Mem.write, cellTagged, harr], fun a ha => by simp [Mem.write, ha]⟩
    · intro m2 h
      simp only [load_array_word_elem, harr] at h
      split at h
      · simp at h; simp [h]
      · split at h
        · simp at h; simp [h]
        · exact absurd h (by simp)
  | boolean_t =>
    constructor
    · intro m2 sp2 h
      simp only [load_array_word_elem, harr] at h
      split at h
      · simp at h
        obtain ⟨h2, h3⟩ := h
        subst h2 h3
        exact ⟨rfl, by simp [Mem.write, cellTagged, harr], fun a ha => by simp [Mem.write, ha]⟩
      · split at h
        · simp at h
          obtain ⟨h2, h3⟩ := h
          subst h2 h3
          exact ⟨rfl, by simp [Mem.write, cellTagged, harr], fun a ha => by simp [Mem.write, ha]⟩
        · exact absurd h (by simp)
    · intro m2 h
      simp only [load_array_word_elem, harr] at h
      split at h
      · exact absurd h (by simp)
      · split at h
        · exact absurd h (by simp)
        · simp at h; simp [h]

/-- Write confinement for cell-kind arrays: the loop only writes cells of
indices in [off, maxlen); on a clean exit the writes are exactly within
[off, final count) and every such cell holds a value tagged for the
element kind. -/
theorem load_array_cells_confined (fuel : Nat) :
    (∀ (arr : toml_array_t) (off sp : Nat) (input : List Char) (mem : Mem)
      (st : Int) (rest : List Char) (mem2 : Mem) (c : Nat),
      cellKind arr.type = true →
      load_array_loop fuel arr off sp input mem = some (st, rest, mem2, c) →
        (∀ a, mem2 a ≠ mem a → ∃ i, off ≤ i ∧ i < arr.maxlen ∧ a = arr.arr.readCells + i)
      ∧ (st = 0 → ∀ a, mem2 a ≠ mem a → ∃ i, off ≤ i ∧ i < c ∧ a = arr.arr.readCells + i)
      ∧ (st = 0 → ∀ i, off ≤ i → i < c → cellTagged arr.type (mem2 (arr.arr.readCells + i)) = true))
  ∧ (∀ (arr : toml_array_t) (off sp : Nat) (input : List Char) (mem : Mem)
      (st : Int) (rest : List Char) (mem2 : Mem) (c : Nat),
      cellKind arr.type = true →
      load_array_sep fuel arr off sp input mem = some (st, rest, mem2, c) →
        (∀ a, mem2 a ≠ mem a → ∃ i, off + 1 ≤ i ∧ i < arr.maxlen ∧ a = arr.arr.readCells + i)
      ∧ (st = 0 → ∀ a, mem2 a ≠ mem a → ∃ i, off + 1 ≤ i ∧ i < c ∧ a = arr.arr.readCells + i)
      ∧ (st = 0 → ∀ i, off + 1 ≤ i → i < c →
          cellTagged arr.type (mem2 (arr.arr.readCells + i)) = true)) := by
  induction fuel with
  | zero =>
    constructor <;> intro arr off sp input mem st rest mem2 c hk h <;>
      simp [load_array_loop, load_array_sep] at h
  | succ fuel ih =>
    constructor
    · intro arr off sp input mem st rest mem2 c hk h
      rcases h1 : scan TOKBUFSIZ input with ⟨tok, input1⟩
      simp only [load_array_loop, h1] at h
      split at h
      · simp at h
        obtain ⟨h2, h3, h4, h5⟩ := h
        subst h4 h5
        exact ⟨fun a ha => absurd rfl ha, fun _ a ha => absurd rfl ha,
          fun _ i hi1 hi2 => absurd hi2 (by omega)⟩
      · simp at h
        obtain ⟨h2, h3, h4, h5⟩ := h
        subst h4 h5
        exact ⟨fun a ha => absurd rfl ha, fun _ a ha => absurd rfl ha,
          fun _ i hi1 hi2 => absurd hi2 (by omega)⟩
      · simp at h
        obtain ⟨h2, h3, h4, h5⟩ := h
        subst h2 h4
        exact ⟨fun a ha => absurd rfl ha, fun h0 => absurd h0 (by omega),
          fun h0 => absurd h0 (by omega)⟩
      · split at h
        · simp at h
          obtain ⟨h2, h3, h4, h5⟩ := h
          subst h2 h4
          exact ⟨fun a ha => absurd rfl ha, fun h0 => absurd h0 (by omega),
            fun h0 => absurd h0 (by omega)⟩
        · rename_i hcap
          split at h
          · split at h
            · rename_i m helem
              simp at h
              obtain ⟨h2, h3, h4, h5⟩ := h
              subst h2 h4
              have hfe := (cell_elem_effect arr off sp _ mem hk).2 m helem
              subst hfe
              exact ⟨fun a ha => absurd rfl ha, fun h0 => absurd h0 (by omega),
                fun h0 => absurd h0 (by omega)⟩
            · rename_i m sp2 helem
              have hfe := (cell_elem_effect arr off sp _ mem hk).1 m sp2 helem
              obtain ⟨hsp, htag, hfr⟩ := hfe
              have hsep := ih.2 arr off sp2 input1 m st rest mem2 c hk h
              have hcnt := (load_array_count_bound fuel).2 arr off sp2 input1 m st rest mem2 c h
              refine ⟨?_, ?_, ?_⟩
              · intro a ha
                by_cases hma : mem2 a = m a
                · have : m a ≠ mem a := by rw [hma] at ha; exact ha
                  have haeq : a = arr.arr.readCells + off := by
                    by_contra hne
                    exact this (hfr a hne)
                  exact ⟨off, le_refl off, by omega, haeq⟩
                · obtain ⟨i, hi1, hi2, hi3⟩ := (hsep.1) a hma
                  exact ⟨i, by omega, hi2, hi3⟩
              · intro h0 a ha
                by_cases hma : mem2 a = m a
                · have : m a ≠ mem a := by rw [hma] at ha; exact ha
                  have haeq : a = arr.arr.readCells + off := by
                    by_contra hne
                    exact this (hfr a hne)
                  exact ⟨off, le_refl off, by omega, haeq⟩
                · obtain ⟨i, hi1, hi2, hi3⟩ := (hsep.2.1) h0 a hma
                  exact ⟨i, by omega, hi2, hi3⟩
              · intro h0 i hi1 hi2
                by_cases hio : i = off
                · subst hio
                  have heq : mem2 (arr.arr.readCells + i) = m (arr.arr.readCells + i) := by
                    by_contra hne
                    obtain ⟨i2, hj1, hj2, hj3⟩ := (hsep.1) _ hne
                    omega
                  rw [heq]
                  exact htag
                · exact hsep.2.2 h0 i (by omega) hi2
          · split at h
            · rename_i m helem
              simp at h
              obtain ⟨h2, h3, h4, h5⟩ := h
              subst h2 h4
              have hfe := (cell_elem_effect arr off sp _ mem hk).2 m helem
              subst hfe
              exact ⟨fun a ha => absurd rfl ha, fun h0 => absurd h0 (by omega),
                fun h0 => absurd h0 (by omega)⟩
            · rename_i m sp2 helem
              have hfe := (cell_elem_effect arr off sp _ mem hk).1 m sp2 helem
              obtain ⟨hsp, htag, hfr⟩ := hfe
              have hsep := ih.2 arr off sp2 input1 m st rest mem2 c hk h
              have hcnt := (load_array_count_bound fuel).2 arr off sp2 input1 m st rest mem2 c h
              refine ⟨?_, ?_, ?_⟩
              · intro a ha
                by_cases hma : mem2 a = m a
                · have : m a ≠ mem a := by rw [hma] at ha; exact ha
                  have haeq : a = arr.arr.readCells + off := by
                    by_contra hne
                    exact this (hfr a hne)
                  exact ⟨off, le_refl off, by omega, haeq⟩
                · obtain ⟨i, hi1, hi2, hi3⟩ := (hsep.1) a hma
                  exact ⟨i, by omega, hi2, hi3⟩
              · intro h0 a ha
                by_cases hma : mem2 a = m a
                · have : m a ≠ mem a := by rw [hma] at ha; exact ha
                  have haeq : a = arr.arr.readCells + off := by
                    by_contra hne
                    exact this (hfr a hne)
                  exact ⟨off, le_refl off, by omega, haeq⟩
                · obtain ⟨i, hi1, hi2, hi3⟩ := (hsep.2.1) h0 a hma
                  exact ⟨i, by omega, hi2, hi3⟩
              · intro h0 i hi1 hi2
                by_cases hio : i = off
                · subst hio
                  have heq : mem2 (arr.arr.readCells + i) = m (arr.arr.readCells + i) := by
                    by_contra hne
                    obtain ⟨i2, hj1, hj2, hj3⟩ := (hsep.1) _ hne
                    omega
                  rw [heq]
                  exact htag
                · exact hsep.2.2 h0 i (by omega) hi2
          · split at h
            · simp at h
              obtain ⟨h2, h3, h4, h5⟩ := h
              subst h2 h4
              exact ⟨fun a ha => absurd rfl ha, fun h0 => absurd h0 (by omega),
                fun h0 => absurd h0 (by omega)⟩
            · rename_i htab
              exfalso
              have : arr.type = TomlType.table_t := by
                by_contra hne
                exact htab hne
              rw [this] at hk
              simp [cellKind] at hk
          · simp at h
            obtain ⟨h2, h3, h4, h5⟩ := h
            subst h2 h4
            exact ⟨fun a ha => absurd rfl ha, fun h0 => absurd h0 (by omega),
              fun h0 => absurd h0 (by omega)⟩
    · intro arr off sp input mem st rest mem2 c hk h
      rcases h1 : scan TOKBUFSIZ input with ⟨tok, input1⟩
      simp only [load_array_sep, h1] at h
      split at h
      · simp at h
        obtain ⟨h2, h3, h4, h5⟩ := h
        subst h4 h5
        exact ⟨fun a ha => absurd rfl ha, fun _ a ha => absurd rfl ha,
          fun _ i hi1 hi2 => absurd hi2 (by omega)⟩
      · exact ih.1 arr (off + 1) sp input1 mem st rest mem2 c hk h
      · simp at h
        obtain ⟨h2, h3, h4, h5⟩ := h
        subst h2 h4
        exact ⟨fun a ha => absurd rfl ha, fun h0 => absurd h0 (by omega),
          fun h0 => absurd h0 (by omega)⟩

/-- Effect of the STRING/WORD element switch for a string-kind array: the
pointer slot of the current offset receives a pointer to the current store
position before the store-capacity check, so even the failing case has
written exactly that slot; the successful case additionally copies the
token text plus terminator into the store slice starting at the current
store position, which the capacity check keeps inside the declared store
region, and advances the store position past the terminator. -/
theorem string_elem_effect (arr : toml_array_t) (off sp : Nat) (s : List Char) (mem : Mem)
    (ht : arr.type = .string_t)
    (hsp : arr.arr.readStringsStore ≤ sp)
    (hdj : ∀ i, i < arr.maxlen →
      ¬(arr.arr.readStringsStore ≤ arr.arr.readStringsPtrs + i ∧
        arr.arr.readStringsPtrs + i <
          arr.arr.readStringsStore + arr.arr.readStringsStorelen))
    (hoff : off < arr.maxlen) :
    (∀ m2 sp2, load_array_word_elem arr off sp s mem = .ok m2 sp2 →
      sp2 = sp + s.length + 1 ∧
      sp + s.length + 1 ≤ arr.arr.readStringsStore + arr.arr.readStringsStorelen ∧
      m2 (arr.arr.readStringsPtrs + off) = .ptrv sp ∧
      (∀ a, m2 a ≠ mem a →
        a = arr.arr.readStringsPtrs + off ∨ (sp ≤ a ∧ a < sp + s.length + 1)))
  ∧ (∀ m2, load_array_word_elem arr off sp s mem = .fail m2 →
      ∀ a, m2 a ≠ mem a → a = arr.arr.readStringsPtrs + off) := by
  constructor
  · intro m2 sp2 h
    simp only [load_array_word_elem, ht] at h
    split at h
    · exact absurd h (by simp)
    · rename_i hfree
      simp at h
      obtain ⟨h2, h3⟩ := h
      subst h2 h3
      have hb : sp + s.length + 1 ≤
          arr.arr.readStringsStore + arr.arr.readStringsStorelen := by omega
      refine ⟨rfl, hb, ?_, ?_⟩
      · have hni : ¬(sp ≤ arr.arr.readStringsPtrs + off ∧
            arr.arr.readStringsPtrs + off < sp + s.length + 1) := by
          intro hin
          exact hdj off hoff ⟨by omega, by omega⟩
        simp only [hni, if_false]
        simp [Mem.write]
      · intro a ha
        by_cases hin : sp ≤ a ∧ a < sp + s.length + 1
        · exact Or.inr hin
        · left
          simp only [hin, if_false] at ha
          by_contra hne
          exact ha (by simp [Mem.write, hne])
  · intro m2 h
    simp only [load_array_word_elem, ht] at h
    split at h
    · simp at h
      subst h
      intro a ha
      by_contra hne
      exact ha (by simp [Mem.write, hne])
    · exact absurd h (by simp)

/-- Write confinement for string-kind arrays: assuming the pointer-slot
region and the store region do not overlap, the loop only writes pointer
slots of indices in [off, maxlen) and store bytes inside the declared
store region; on a clean exit the pointer-slot writes are exactly within
[off, final count) and every such slot holds a pointer into the store
region. -/
theorem load_array_strings_confined (fuel : Nat) :
    (∀ (arr : toml_array_t) (off sp : Nat) (input : List Char) (mem : Mem)
      (st : Int) (rest : List Char) (mem2 : Mem) (c : Nat),
      arr.type = .string_t →
      (∀ i, i < arr.maxlen →
        ¬(arr.arr.readStringsStore ≤ arr.arr.readStringsPtrs + i ∧
          arr.arr.readStringsPtrs + i <
            arr.arr.readStringsStore + arr.arr.readStringsStorelen)) →
      arr.arr.readStringsStore ≤ sp →
      load_array_loop fuel arr off sp input mem = some (st, rest, mem2, c) →
        (∀ a, mem2 a ≠ mem a →
          (∃ i, off ≤ i ∧ i < arr.maxlen ∧ a = arr.arr.readStringsPtrs + i) ∨
          (arr.arr.readStringsStore ≤ a ∧
            a < arr.arr.readStringsStore + arr.arr.readStringsStorelen))
      ∧ (st = 0 → ∀ a, mem2 a ≠ mem a →
          (∃ i, off ≤ i ∧ i < c ∧ a = arr.arr.readStringsPtrs + i) ∨
          (arr.arr.readStringsStore ≤ a ∧
            a < arr.arr.readStringsStore + arr.arr.readStringsStorelen))
      ∧ (st = 0 → ∀ i, off ≤ i → i < c →
          ∃ p, arr.arr.readStringsStore ≤ p ∧
            p < arr.arr.readStringsStore + arr.arr.readStringsStorelen ∧
            mem2 (arr.arr.readStringsPtrs + i) = .ptrv p))
  ∧ (∀ (arr : toml_array_t) (off sp : Nat) (input : List Char) (mem : Mem)
      (st : Int) (rest : List Char) (mem2 : Mem) (c : Nat),
      arr.type = .string_t →
      (∀ i, i < arr.maxlen →
        ¬(arr.arr.readStringsStore ≤ arr.arr.readStringsPtrs + i ∧
          arr.arr.readStringsPtrs + i <
            arr.arr.readStringsStore + arr.arr.readStringsStorelen)) →
      arr.arr.readStringsStore ≤ sp →
      load_array_sep fuel arr off sp input mem = some (st, rest, mem2, c) →
        (∀ a, mem2 a ≠ mem a →
          (∃ i, off + 1 ≤ i ∧ i < arr.maxlen ∧ a = arr.arr.readStringsPtrs + i) ∨
          (arr.arr.readStringsStore ≤ a ∧
            a < arr.arr.readStringsStore + arr.arr.readStringsStorelen))
      ∧ (st = 0 → ∀ a, mem2 a ≠ mem a →
          (∃ i, off + 1 ≤ i ∧ i < c ∧ a = arr.arr.readStringsPtrs + i) ∨
          (arr.arr.readStringsStore ≤ a ∧
            a < arr.arr.readStringsStore + arr.arr.readStringsStorelen))
      ∧ (st = 0 → ∀ i, off + 1 ≤ i → i < c →
          ∃ p, arr.arr.readStringsStore ≤ p ∧
            p < arr.arr.readStringsStore + arr.arr.readStringsStorelen ∧
            mem2 (arr.arr.readStringsPtrs + i) = .ptrv p)) := by
  induction fuel with
  | zero =>
    constructor <;> intro arr off sp input mem st rest mem2 c ht hdj hsp h <;>
      simp [load_array_loop, load_array_sep] at h
  | succ fuel ih =>
    constructor
    · intro arr off sp input mem st rest mem2 c ht hdj hsp h
      rcases h1 : scan TOKBUFSIZ input with ⟨tok, input1⟩
      simp only [load_array_loop, h1] at h
      split at h
      · simp at h
        obtain ⟨h2, h3, h4, h5⟩ := h
        subst h4 h5
        exact ⟨fun a ha => absurd rfl ha, fun _ a ha => absurd rfl ha,
          fun _ i hi1 hi2 => absurd hi2 (by omega)⟩
      · simp at h
        obtain ⟨h2, h3, h4, h5⟩ := h
        subst h4 h5
        exact ⟨fun a ha => absurd rfl ha, fun _ a ha => absurd rfl ha,
          fun _ i hi1 hi2 => absurd hi2 (by omega)⟩
      · simp at h
        obtain ⟨h2, h3, h4, h5⟩ := h
        subst h2 h4
        exact ⟨fun a ha => absurd rfl ha, fun h0 => absurd h0 (by omega),
          fun h0 => absurd h0 (by omega)⟩
      · split at h
        · simp at h
          obtain ⟨h2, h3, h4, h5⟩ := h
          subst h2 h4
          exact ⟨fun a ha => absurd rfl ha, fun h0 => absurd h0 (by omega),
            fun h0 => absurd h0 (by omega)⟩
        · rename_i hcap
          split at h
          · split at h
            · rename_i m helem
              simp at h
              obtain ⟨h2, h3, h4, h5⟩ := h
              subst h2 h4
              have hfr := (string_elem_effect arr off sp _ mem ht hsp hdj (by omega)).2 m helem
              refine ⟨?_, fun h0 => absurd h0 (by omega), fun h0 => absurd h0 (by omega)⟩
              intro a ha
              exact Or.inl ⟨off, le_refl off, by omega, hfr a ha⟩
            · rename_i m sp2 helem
              have hfe := (string_elem_effect arr off sp _ mem ht hsp hdj (by omega)).1
                m sp2 helem
              obtain ⟨hsp2, hbound, hptr, hfr⟩ := hfe
              have hsp2ge : arr.arr.readStringsStore ≤ sp2 := by omega
              have hsep := ih.2 arr off sp2 input1 m st rest mem2 c ht hdj hsp2ge h
              have hcnt := (load_array_count_bound fuel).2 arr off sp2 input1 m st rest mem2 c h
              refine ⟨?_, ?_, ?_⟩
              · intro a ha
                by_cases hma : mem2 a = m a
                · have hmm : m a ≠ mem a := by rw [hma] at ha; exact ha
                  rcases hfr a hmm with he | hin
                  · exact Or.inl ⟨off, le_refl off, by omega, he⟩
                  · exact Or.inr ⟨by omega, by omega⟩
                · rcases hsep.1 a hma with ⟨i, hi1, hi2, hi3⟩ | hin
                  · exact Or.inl ⟨i, by omega, hi2, hi3⟩
                  · exact Or.inr hin
              · intro h0 a ha
                by_cases hma : mem2 a = m a
                · have hmm : m a ≠ mem a := by rw [hma] at ha; exact ha
                  rcases hfr a hmm with he | hin
                  · exact Or.inl ⟨off, le_refl off, by omega, he⟩
                  · exact Or.inr ⟨by omega, by omega⟩
                · rcases hsep.2.1 h0 a hma with ⟨i, hi1, hi2, hi3⟩ | hin
                  · exact Or.inl ⟨i, by omega, hi2, hi3⟩
                  · exact Or.inr hin
              · intro h0 i hi1 hi2
                by_cases hio : i = off
                · subst hio
                  have heq : mem2 (arr.arr.readStringsPtrs + i) =
                      m (arr.arr.readStringsPtrs + i) := by
                    by_contra hne
                    rcases hsep.1 _ hne with ⟨i2, hj1, hj2, hj3⟩ | hin
                    · omega
                    · exact hdj i (by omega) hin
                  rw [heq, hptr]
                  exact ⟨sp, hsp, by omega, rfl⟩
                · exact hsep.2.2 h0 i (by omega) hi2
          · split at h
            · rename_i m helem
              simp at h
              obtain ⟨h2, h3, h4, h5⟩ := h
              subst h2 h4
              have hfr := (string_elem_effect arr off sp _ mem ht hsp hdj (by omega)).2 m helem
              refine ⟨?_, fun h0 => absurd h0 (by omega), fun h0 => absurd h0 (by omega)⟩
              intro a ha
              exact Or.inl ⟨off, le_refl off, by omega, hfr a ha⟩
            · rename_i m sp2 helem
              have hfe := (string_elem_effect arr off sp _ mem ht hsp hdj (by omega)).1
                m sp2 helem
              obtain ⟨hsp2, hbound, hptr, hfr⟩ := hfe
              have hsp2ge : arr.arr.readStringsStore ≤ sp2 := by omega
              have hsep := ih.2 arr off sp2 input1 m st rest mem2 c ht hdj hsp2ge h
              have hcnt := (load_array_count_bound fuel).2 arr off sp2 input1 m st rest mem2 c h
              refine ⟨?_, ?_, ?_⟩
              · intro a ha
                by_cases hma : mem2 a = m a
                · have hmm : m a ≠ mem a := by rw [hma] at ha; exact ha
                  rcases hfr a hmm with he | hin
                  · exact Or.inl ⟨off, le_refl off, by omega, he⟩
                  · exact Or.inr ⟨by omega, by omega⟩
                · rcases hsep.1 a hma with ⟨i, hi1, hi2, hi3⟩ | hin
                  · exact Or.inl ⟨i, by omega, hi2, hi3⟩
                  · exact Or.inr hin
              · intro h0 a ha
                by_cases hma : mem2 a = m a
                · have hmm : m a ≠ mem a := by rw [hma] at ha; exact ha
                  rcases hfr a hmm with he | hin
                  · exact Or.inl ⟨off, le_refl off, by omega, he⟩
                  · exact Or.inr ⟨by omega, by omega⟩
                · rcases hsep.2.1 h0 a hma with ⟨i, hi1, hi2, hi3⟩ | hin
                  · exact Or.inl ⟨i, by omega, hi2, hi3⟩
                  · exact Or.inr hin
              · intro h0 i hi1 hi2
                by_cases hio : i = off
                · subst hio
                  have heq : mem2 (arr.arr.readStringsPtrs + i) =
                      m (arr.arr.readStringsPtrs + i) := by
                    by_contra hne
                    rcases hsep.1 _ hne with ⟨i2, hj1, hj2, hj3⟩ | hin
                    · omega
                    · exact hdj i (by omega) hin
                  rw [heq, hptr]
                  exact ⟨sp, hsp, by omega, rfl⟩
                · exact hsep.2.2 h0 i (by omega) hi2
          · split at h
            · simp at h
              obtain ⟨h2, h3, h4, h5⟩ := h
              subst h2 h4
              exact ⟨fun a ha => absurd rfl ha, fun h0 => absurd h0 (by omega),
                fun h0 => absurd h0 (by omega)⟩
            · rename_i htab
              exfalso
              have h2 : arr.type = TomlType.table_t := by
                by_contra hne
                exact htab hne
              rw [ht] at h2
              exact absurd h2 (by simp)
          · simp at h
            obtain ⟨h2, h3, h4, h5⟩ := h
            subst h2 h4
            exact ⟨fun a ha => absurd rfl ha, fun h0 => absurd h0 (by omega),
              fun h0 => absurd h0 (by omega)⟩
    · intro arr off sp input mem st rest mem2 c ht hdj hsp h
      rcases h1 : scan TOKBUFSIZ input with ⟨tok, input1⟩
      simp only [load_array_sep, h1] at h
      split at h
      · simp at h
        obtain ⟨h2, h3, h4, h5⟩ := h
        subst h4 h5
        exact ⟨fun a ha => absurd rfl ha, fun _ a ha => absurd rfl ha,
          fun _ i hi1 hi2 => absurd hi2 (by omega)⟩
      · exact ih.1 arr (off + 1) sp input1 mem st rest mem2 c ht hdj hsp h
      · simp at h
        obtain ⟨h2, h3, h4, h5⟩ := h
        subst h2 h4
        exact ⟨fun a ha => absurd rfl ha, fun h0 => absurd h0 (by omega),
          fun h0 => absurd h0 (by omega)⟩

/-- A concrete integer array descriptor: 3 cells at 300, count cell at 900. -/
def c8arr : toml_array_t := .mk .integer_t (some 900) 3 (.cells 300)

/-- The memory produced by loading [1, 2, 3] into c8arr from memInit. -/
def c8mem2 : Mem :=
  (((memInit.write 300 (.i32 1)).write 301 (.i32 2)).write 302 (.i32 3)).write 900 (.i32 3)

/-- A concrete string array descriptor: 2 pointer slots at 400, a 16-byte
store at 600, count cell at 910. -/
def c8sarr : toml_array_t := .mk .string_t (some 910) 2 (.strings 400 600 16)

/-- C8: for every array whose parse completes successfully the count cell
receives a length that is at most the declared capacity; for cell-kind
arrays that length is exactly the number of cells written, every written
cell carries the declared element kind and no other memory changes, and a
failing parse writes nothing outside the declared capacity; for string
arrays (whose pointer slots and store region do not overlap) a successful
parse fills exactly the pointer slots below the length with pointers into
the store region, confines every other write to the store region and the
count cell, and a failing parse stays within the pointer slots below the
capacity and the store region; and concretely, for both an integer and a
string array, an input with exactly capacity elements succeeds with
length = capacity while capacity + 1 elements is an error that leaves the
slot past the capacity and the count cell untouched. -/
theorem c8_array_length_and_kind_invariants :
    (∀ (fuel : Nat) (arr : toml_array_t) (input : List Char) (mem : Mem)
        (rest : List Char) (mem2 : Mem) (cnt : Nat),
      arr.count = some cnt →
      load_array fuel arr input mem = some (0, rest, mem2) →
      ∃ c, c ≤ arr.maxlen ∧ mem2 cnt = .i32 (wrap32 (Int.ofNat c)))
  ∧ (∀ (fuel : Nat) (arr : toml_array_t) (input : List Char) (mem : Mem)
        (rest : List Char) (mem2 : Mem) (cnt : Nat),
      cellKind arr.type = true →
      arr.count = some cnt →
      (∀ i, i < arr.maxlen → cnt ≠ arr.arr.readCells + i) →
      load_array fuel arr input mem = some (0, rest, mem2) →
      ∃ c, c ≤ arr.maxlen ∧
        mem2 cnt = .i32 (wrap32 (Int.ofNat c)) ∧
        (∀ i, i < c → cellTagged arr.type (mem2 (arr.arr.readCells + i)) = true) ∧
        (∀ a, mem2 a ≠ mem a → a = cnt ∨ ∃ i, i < c ∧ a = arr.arr.readCells + i))
  ∧ (∀ (fuel : Nat) (arr : toml_array_t) (input : List Char) (mem : Mem)
        (rest : List Char) (mem2 : Mem),
      cellKind arr.type = true →
      load_array fuel arr input mem = some (-1, rest, mem2) →
      ∀ a, mem2 a ≠ mem a → ∃ i, i < arr.maxlen ∧ a = arr.arr.readCells + i)
  ∧ (∀ (fuel : Nat) (arr : toml_array_t) (input : List Char) (mem : Mem)
        (rest : List Char) (mem2 : Mem) (cnt : Nat),
      arr.type = .string_t →
      arr.count = some cnt →
      (∀ i, i < arr.maxlen →
        ¬(arr.arr.readStringsStore ≤ arr.arr.readStringsPtrs + i ∧
          arr.arr.readStringsPtrs + i <
            arr.arr.readStringsStore + arr.arr.readStringsStorelen)) →
      (∀ i, i < arr.maxlen → cnt ≠ arr.arr.readStringsPtrs + i) →
      load_array fuel arr input mem = some (0, rest, mem2) →
      ∃ c, c ≤ arr.maxlen ∧
        mem2 cnt = .i32 (wrap32 (Int.ofNat c)) ∧
        (∀ i, i < c → ∃ p, arr.arr.readStringsStore ≤ p ∧
          p < arr.arr.readStringsStore + arr.arr.readStringsStorelen ∧
          mem2 (arr.arr.readStringsPtrs + i) = .ptrv p) ∧
        (∀ a, mem2 a ≠ mem a → a = cnt ∨
          (∃ i, i < c ∧ a = arr.arr.readStringsPtrs + i) ∨
          (arr.arr.readStringsStore ≤ a ∧
            a < arr.arr.readStringsStore + arr.arr.readStringsStorelen)))
  ∧ (∀ (fuel : Nat) (arr : toml_array_t) (input : List Char) (mem : Mem)
        (rest : List Char) (mem2 : Mem),
      arr.type = .string_t →
      (∀ i, i < arr.maxlen →
        ¬(arr.arr.readStringsStore ≤ arr.arr.readStringsPtrs + i ∧
          arr.arr.readStringsPtrs + i <
            arr.arr.readStringsStore + arr.arr.readStringsStorelen)) →
      load_array fuel arr input mem = some (-1, rest, mem2) →
      ∀ a, mem2 a ≠ mem a →
        (∃ i, i < arr.maxlen ∧ a = arr.arr.readStringsPtrs + i) ∨
        (arr.arr.readStringsStore ≤ a ∧
          a < arr.arr.readStringsStore + arr.arr.readStringsStorelen))
  ∧ (load_array 20 c8arr ("1, 2, 3]".toList) memInit).map
      (fun r => (r.1, r.2.2 900, r.2.2 300, r.2.2 301, r.2.2 302)) =
      some (0, .i32 3, .i32 1, .i32 2, .i32 3)
  ∧ (load_array 20 c8arr ("1, 2, 3, 4]".toList) memInit).map
      (fun r => (r.1, r.2.2 900, r.2.2 303)) = some (-1, .undef, .undef)
  ∧ (load_array 20 c8sarr ("\"aa\", \"bb\"]".toList) memInit).map
      (fun r => (r.1, r.2.2 910, r.2.2 400, r.2.2 401, r.2.2 402)) =
      some (0, .i32 2, .ptrv 600, .ptrv 603, .undef)
  ∧ (load_array 20 c8sarr ("\"aa\", \"bb\", \"cc\"]".toList) memInit).map
      (fun r => (r.1, r.2.2 910, r.2.2 402)) = some (-1, .undef, .undef) := by
  refine ⟨?_, ?_, ?_, ?_, ?_, by decide, by decide, by decide, by decide⟩
  · intro fuel arr input mem rest mem2 cnt hc h
    cases fuel with
    | zero => simp [load_array] at h
    | succ fuel =>
      simp only [load_array] at h
      split at h
      · exact absurd h (by simp)
      · rename_i st rest0 m off heq
        split at h
        · rename_i hst
          subst hst
          simp only [hc] at h
          simp at h
          obtain ⟨h2, h3⟩ := h
          subst h2 h3
          have hcb := (load_array_count_bound fuel).1 arr 0 arr.arr.readStringsStore input mem
            0 rest0 m off heq
          exact ⟨off, hcb.2 rfl (by omega), by simp [Mem.write]⟩
        · exact absurd h (by simp)
  · intro fuel arr input mem rest mem2 cnt hk hc hna h
    cases fuel with
    | zero => simp [load_array] at h
    | succ fuel =>
      simp only [load_array] at h
      split at h
      · exact absurd h (by simp)
      · rename_i st rest0 m off heq
        split at h
        · rename_i hst
          subst hst
          simp only [hc] at h
          simp at h
          obtain ⟨h2, h3⟩ := h
          subst h2 h3
          have hcb := (load_array_count_bound fuel).1 arr 0 arr.arr.readStringsStore input mem
            0 rest0 m off heq
          have hcf := (load_array_cells_confined fuel).1 arr 0 arr.arr.readStringsStore input mem
            0 rest0 m off hk heq
          refine ⟨off, hcb.2 rfl (by omega), ?_, ?_, ?_⟩
          · simp [Mem.write]
          · intro i hi
            have hne : ¬arr.arr.readCells + i = cnt := by
              intro he
              exact hna i (by omega) he.symm
            have hm : (m.write cnt (MemVal.i32 (wrap32 ((off : Int))))) (arr.arr.readCells + i)
                = m (arr.arr.readCells + i) := by
              simp [Mem.write, hne]
            rw [hm]
            exact hcf.2.2 rfl i (by omega) hi
          · intro a ha
            by_cases hac : a = cnt
            · exact Or.inl hac
            · have hm : (m.write cnt (MemVal.i32 (wrap32 ((off : Int))))) a = m a := by
                simp [Mem.write, hac]
              rw [hm] at ha
              obtain ⟨i, hi1, hi2, hi3⟩ := hcf.2.1 rfl a ha
              exact Or.inr ⟨i, hi2, hi3⟩
        · exact absurd h (by simp)
  · intro fuel arr input mem rest mem2 hk h
    cases fuel with
    | zero => simp [load_array] at h
    | succ fuel =>
      simp only [load_array] at h
      split at h
      · exact absurd h (by simp)
      · rename_i st rest0 m off heq
        split at h
        · rename_i hst
          exfalso
          rcases hc2 : arr.count with _ | a <;> simp [hc2] at h
        · simp at h
          obtain ⟨h2, h3⟩ := h
          subst h2 h3
          intro a ha
          obtain ⟨i, hi1, hi2, hi3⟩ :=
            ((load_array_cells_confined fuel).1 arr 0 arr.arr.readStringsStore input mem
              st rest0 m off hk heq).1 a ha
          exact ⟨i, hi2, hi3⟩
  · intro fuel arr input mem rest mem2 cnt ht hc hdj hna h
    cases fuel with
    | zero => simp [load_array] at h
    | succ fuel =>
      simp only [load_array] at h
      split at h
      · exact absurd h (by simp)
      · rename_i st rest0 m off heq
        split at h
        · rename_i hst
          subst hst
          simp only [hc] at h
          simp at h
          obtain ⟨h2, h3⟩ := h
          subst h2 h3
          have hcb := (load_array_count_bound fuel).1 arr 0 arr.arr.readStringsStore input mem
            0 rest0 m off heq
          have hsf := (load_array_strings_confined fuel).1 arr 0 arr.arr.readStringsStore
            input mem 0 rest0 m off ht hdj (le_refl _) heq
          refine ⟨off, hcb.2 rfl (by omega), ?_, ?_, ?_⟩
          · simp [Mem.write]
          · intro i hi
            obtain ⟨p, hp1, hp2, hp3⟩ := hsf.2.2 rfl i (by omega) hi
            have hne : ¬arr.arr.readStringsPtrs + i = cnt := by
              intro he
              exact hna i (by omega) he.symm
            refine ⟨p, hp1, hp2, ?_⟩
            have hm : (m.write cnt (MemVal.i32 (wrap32 ((off : Int)))))
                (arr.arr.readStringsPtrs + i) = m (arr.arr.readStringsPtrs + i) := by
              simp [Mem.write, hne]
            rw [hm]
            exact hp3
          · intro a ha
            by_cases hac : a = cnt
            · exact Or.inl hac
            · have hm : (m.write cnt (MemVal.i32 (wrap32 ((off : Int))))) a = m a := by
                simp [Mem.write, hac]
              rw [hm] at ha
              rcases hsf.2.1 rfl a ha with ⟨i, hi1, hi2, hi3⟩ | hin
              · exact Or.inr (Or.inl ⟨i, hi2, hi3⟩)
              · exact Or.inr (Or.inr hin)
        · exact absurd h (by simp)
  · intro fuel arr input mem rest mem2 ht hdj h
    cases fuel with
    | zero => simp [load_array] at h
    | succ fuel =>
      simp only [load_array] at h
      split at h
      · exact absurd h (by simp)
      · rename_i st rest0 m off heq
        split at h
        · rename_i hst
          exfalso
          rcases hc2 : arr.count with _ | a <;> simp [hc2] at h
        · simp at h
          obtain ⟨h2, h3⟩ := h
          subst h2 h3
          intro a ha
          rcases ((load_array_strings_confined fuel).1 arr 0 arr.arr.readStringsStore input mem
              st rest0 m off ht hdj (le_refl _) heq).1 a ha with ⟨i, hi1, hi2, hi3⟩ | hin
          · exact Or.inl ⟨i, hi2, hi3⟩
          · exact Or.inr hin

theorem c8_array_length_and_kind_invariants_witness :
    ∃ c, c ≤ c8arr.maxlen ∧
      c8mem2 900 = .i32 (wrap32 (Int.ofNat c)) ∧
      (∀ i, i < c → cellTagged c8arr.type (c8mem2 (c8arr.arr.readCells + i)) = true) ∧
      (∀ a, c8mem2 a ≠ memInit a → a = 900 ∨ ∃ i, i < c ∧ a = c8arr.arr.readCells + i) :=
  c8_array_length_and_kind_invariants.2.1 20 c8arr ("1, 2, 3]".toList) memInit [] c8mem2 900
    (by decide) rfl (by decide) (by rfl)
